import Mathlib

/-!
stopctx: a stop context with an identifiable stop error.

A shallow embedding of `context.go` (package `stopctx`).

Go objects that have identity (channels, `sync.Once` values, `*Context`
values and error objects) live in an explicit heap and are referred to by
address.  Every Go function that reads or writes such an object takes the heap
and returns it; a Go panic is the `Except.error` result.

The Go standard library functions the package calls (`errors.New`,
`errors.Is`, `fmt.Errorf`, `strings.Contains`, `sync.Once.Do`, `close`, the
receive in a `select` with a `default` branch) are modelled by what they do on
the two error types the package builds, `*errors.errorString` and
`*fmt.wrapError`.  Go strings are modelled as Lean strings (sequences of
characters).
-/

namespace Stopctx

/-! ## Go runtime: panics, errors, strings, formatting -/

/-- An address of a heap object. -/
abbrev Addr := Nat

deriving instance DecidableEq for Except

/-- The run-time panics the modelled code can raise. -/
inductive Panic
  | nilDereference
  | closeOfClosedChannel
  | closeOfNilChannel
  deriving DecidableEq, Repr

/-- A non-nil Go error value: a pointer (address) to an `errors.errorString`, made by
`errors.New`, or to a `fmt.wrapError`, made by `fmt.Errorf` with one `%w` operand. -/
inductive ErrObj
  | errorString (addr : Addr) (s : String)
  | wrapError (addr : Addr) (msg : String) (err : ErrObj)
  deriving DecidableEq, Repr

/-- The Go interface type `error`: `none` is the nil error. -/
abbrev Error := Option ErrObj

/-- The method `Error()` of a non-nil error. -/
def ErrObj.msg : ErrObj → String
  | .errorString _ s => s
  | .wrapError _ m _ => m

/-- The call `err.Error()` on an interface value: it panics on the nil interface. -/
def errError : Error → Except Panic String
  | none => .error .nilDereference
  | some e => .ok e.msg

/-- Go `==` on two non-nil error interface values holding pointers: same dynamic type and
same address. -/
def ErrObj.ptrEq : ErrObj → ErrObj → Bool
  | .errorString a _, .errorString b _ => a == b
  | .wrapError a _ _, .wrapError b _ _ => a == b
  | _, _ => false

/-- The loop of `errors.Is`: compare, then follow `Unwrap` (only `wrapError` has it). -/
def errorsIsLoop : ErrObj → ErrObj → Bool
  | .errorString a s, target => (ErrObj.errorString a s).ptrEq target
  | .wrapError a m e, target => (ErrObj.wrapError a m e).ptrEq target || errorsIsLoop e target

/-- The function `errors.Is(err, target)`. -/
def errorsIs (err target : Error) : Bool :=
  match err, target with
  | none, none => true
  | none, some _ => false
  | some _, none => false
  | some e, some t => errorsIsLoop e t

/-- The function `errors.New(text)`, allocating at `addr`. -/
def errorsNew (addr : Addr) (text : String) : Error :=
  some (.errorString addr text)

/-- First position in `s` (counted from `i`) at which `substr` starts, or `-1`. -/
def indexFrom (substr : List Char) : List Char → Nat → Int
  | [], i => if substr.isEmpty then (i : Int) else -1
  | c :: s, i => if substr.isPrefixOf (c :: s) then (i : Int) else indexFrom substr s (i + 1)

/-- The function `strings.Index(s, substr)`. -/
def stringsIndex (s substr : String) : Int :=
  indexFrom substr.data s.data 0

/-- The function `strings.Contains(s, substr)`, which is `Index(s, substr) >= 0`. -/
def stringsContains (s substr : String) : Bool :=
  decide (0 ≤ stringsIndex s substr)

/-- A value of the empty interface `interface{}`, as far as identifiers and keys need it. -/
inductive Value
  | nil
  | int (n : Int)
  | str (s : String)
  | bool (b : Bool)
  deriving DecidableEq, Repr

/-- The decimal digit `d` as a character. -/
def digitChar (d : Nat) : Char :=
  Char.ofNat (48 + d)

/-- Decimal digits of `u`, most significant first, in front of `acc`. -/
def decimalDigits : Nat → Nat → List Char → List Char
  | 0, _, acc => acc
  | fuel + 1, u, acc =>
    if u < 10 then digitChar u :: acc
    else decimalDigits fuel (u / 10) (digitChar (u % 10) :: acc)

/-- The function `strconv.FormatUint(u, 10)`. -/
def formatUint (u : Nat) : String :=
  ⟨decimalDigits (u + 1) u []⟩

/-- The function `strconv.FormatInt(i, 10)`. -/
def formatInt (i : Int) : String :=
  if i < 0 then "-" ++ formatUint (-i).toNat else formatUint i.toNat

/-- The text the verb `%v` prints for a value. -/
def fmtV : Value → String
  | .nil => "<nil>"
  | .int n => formatInt n
  | .str s => s
  | .bool b => if b then "true" else "false"

/-- The call `fmt.Errorf("%w [id = %v]", w, id)`, allocating at `addr`.  With a non-nil
error for `%w` the result is a `wrapError` around it; the text of `%w` is the operand's
`Error()`. -/
def fmtErrorf (addr : Addr) (w : Error) (id : Value) : Error :=
  match w with
  | some e => some (.wrapError addr (e.msg ++ " [id = " ++ fmtV id ++ "]") e)
  | none => some (.errorString addr ("%!w(<nil>) [id = " ++ fmtV id ++ "]"))

/-- The call `fmt.Errorf(text + ": %w", inner)` on a non-nil `inner`, allocating at `addr`. -/
def wrapWith (addr : Addr) (text : String) (inner : ErrObj) : ErrObj :=
  .wrapError addr (text ++ ": " ++ inner.msg) inner

/-- Wrap `inner` in one layer per entry of the list, the head of the list outermost. -/
def wrapLayers : List (Addr × String) → ErrObj → ErrObj
  | [], inner => inner
  | (a, text) :: rest, inner => wrapWith a text (wrapLayers rest inner)

/-- The zero value of `time.Time`. -/
structure Time where
  wall : Nat
  ext : Int
  loc : Option Addr
  deriving DecidableEq, Repr

/-- The zero `time.Time`. -/
def Time.zero : Time := ⟨0, 0, none⟩

/-! ## The package -/

/-- The package variable `ErrStopped = errors.New("context stopped")`, allocated once at
package initialisation (address `0`). -/
def ErrStopped : Error :=
  errorsNew 0 "context stopped"

/-- The struct `Context`: the channel (a reference) and the stop error. -/
structure Context where
  stopCh : Addr
  stopErr : Error
  deriving DecidableEq, Repr

/-- The heap: for each channel whether it is closed, for each `sync.Once` whether it is
done, the `Context` structs, and the next free address for an error object. -/
structure Heap where
  chans : List Bool
  onces : List Bool
  ctxs : List Context
  nextErr : Addr
  deriving DecidableEq, Repr

/-- The heap right after package initialisation: only `ErrStopped` is allocated. -/
def Heap.init : Heap := ⟨[], [], [], 1⟩

/-- The closure `stopFn` of `NewWithID`: it captures `ctx` and `once`. -/
structure StopFn where
  ctx : Addr
  once : Addr
  deriving DecidableEq, Repr

/-- What `NewWithID` returns, with the heap after the call. -/
structure Created where
  ctx : Addr
  stopFn : StopFn
  heap : Heap
  deriving DecidableEq, Repr

/-- The function `NewWithID(id)`. -/
def NewWithID (id : Value) (h : Heap) : Created :=
  let ch := h.chans.length
  let h1 := { h with chans := h.chans ++ [false] }
  let e := fmtErrorf h1.nextErr ErrStopped id
  let h2 := { h1 with nextErr := h1.nextErr + 1 }
  let ctx := h2.ctxs.length
  let h3 := { h2 with ctxs := h2.ctxs ++ [Context.mk ch e] }
  let once := h3.onces.length
  let h4 := { h3 with onces := h3.onces ++ [false] }
  ⟨ctx, ⟨ctx, once⟩, h4⟩

/-- The function `New()`; `now` is the reading `time.Now().UnixNano()`. -/
def New (now : Int) (h : Heap) : Created :=
  NewWithID (.int now) h

/-- The builtin `close(ch)`. -/
def closeChan (ch : Addr) (h : Heap) : Except Panic Heap :=
  match h.chans[ch]? with
  | none => .error .closeOfNilChannel
  | some true => .error .closeOfClosedChannel
  | some false => .ok { h with chans := h.chans.set ch true }

/-- The method `(*sync.Once).Do(f)`: `f` runs if the once is not done, and the once is
done afterwards. -/
def onceDo (o : Addr) (f : Heap → Except Panic Heap) (h : Heap) : Except Panic Heap :=
  match h.onces[o]? with
  | none => .error .nilDereference
  | some true => .ok h
  | some false =>
    match f h with
    | .error p => .error p
    | .ok h1 => .ok { h1 with onces := h1.onces.set o true }

/-- A call of the closure `stopFn`: `once.Do(func() { close(ctx.stopCh) })`. -/
def StopFn.call (f : StopFn) (h : Heap) : Except Panic Heap :=
  onceDo f.once
    (fun h1 =>
      match h1.ctxs[f.ctx]? with
      | none => .error .nilDereference
      | some c => closeChan c.stopCh h1)
    h

/-- The method `(*Context).Deadline()`. -/
def Context.Deadline (_c : Addr) (h : Heap) : Except Panic ((Time × Bool) × Heap) :=
  .ok ((Time.zero, false), h)

/-- The method `(*Context).Done()`. -/
def Context.Done (c : Addr) (h : Heap) : Except Panic (Addr × Heap) :=
  match h.ctxs[c]? with
  | none => .error .nilDereference
  | some x => .ok (x.stopCh, h)

/-- The method `(*Context).Err()`: the receive is ready exactly when the channel is
closed (nothing is ever sent on it); otherwise the `default` branch runs. -/
def Context.Err (c : Addr) (h : Heap) : Except Panic (Error × Heap) :=
  match h.ctxs[c]? with
  | none => .error .nilDereference
  | some x =>
    if h.chans[x.stopCh]? = some true then .ok (x.stopErr, h)
    else .ok (none, h)

/-- The method `(*Context).Value(key)`. -/
def Context.Value (_c : Addr) (_key : Value) (h : Heap) : Except Panic (Value × Heap) :=
  .ok (Value.nil, h)

/-- The method `(*Context).IsMyErr(err)`; `||` evaluates its right operand only when the
left one is false. -/
def Context.IsMyErr (c : Addr) (err : Error) (h : Heap) : Except Panic (Bool × Heap) :=
  match h.ctxs[c]? with
  | none => .error .nilDereference
  | some x =>
    if errorsIs err x.stopErr then .ok (true, h)
    else
      match errError err with
      | .error p => .error p
      | .ok s =>
        match errError x.stopErr with
        | .error p => .error p
        | .ok t => .ok (stringsContains s t, h)

/-! ## Sequences of operations on one context -/

/-- One operation on a context and its stop function. -/
inductive Op
  | stop
  | Deadline
  | Done
  | Err
  | Value (key : Stopctx.Value)
  | IsMyErr (err : Error)
  deriving DecidableEq, Repr

/-- The heap after one operation on the context `c` with stop function `f`. -/
def step (c : Addr) (f : StopFn) : Op → Heap → Except Panic Heap
  | .stop, h => f.call h
  | .Deadline, h => (Context.Deadline c h).map Prod.snd
  | .Done, h => (Context.Done c h).map Prod.snd
  | .Err, h => (Context.Err c h).map Prod.snd
  | .Value key, h => (Context.Value c key h).map Prod.snd
  | .IsMyErr err, h => (Context.IsMyErr c err h).map Prod.snd

/-- The heap after a sequence of operations, stopping at the first panic. -/
def run (c : Addr) (f : StopFn) : List Op → Heap → Except Panic Heap
  | [], h => .ok h
  | op :: ops, h =>
    match step c f op h with
    | .error p => .error p
    | .ok h1 => run c f ops h1

/-- The heap after `n` calls of the stop function in sequence. -/
def callN (f : StopFn) : Nat → Heap → Except Panic Heap
  | 0, h => .ok h
  | n + 1, h =>
    match f.call h with
    | .error p => .error p
    | .ok h1 => callN f n h1

/-- Whether the context at `c` is stopped: its channel is closed. -/
def stopped (c : Addr) (h : Heap) : Bool :=
  match h.ctxs[c]? with
  | none => false
  | some x => h.chans[x.stopCh]? == some true

/-- The field `stopErr` of the context at `c` (nil if there is no context at `c`). -/
def stopErrOf (c : Addr) (h : Heap) : Error :=
  match h.ctxs[c]? with
  | none => none
  | some x => x.stopErr

/-- The context at `c` is the struct `k` with a non-nil stop error, `f` is its stop
function, and its channel is closed exactly when the once of `f` is done. -/
def Good (k : Context) (c : Addr) (f : StopFn) (h : Heap) : Prop :=
  h.ctxs[c]? = some k ∧ f.ctx = c ∧ k.stopErr ≠ none ∧
    ∃ b : Bool, h.chans[k.stopCh]? = some b ∧ h.onces[f.once]? = some b

/-- The wrap chain of an error: the error itself, then what `Unwrap` gives, and so on. -/
def chain : ErrObj → List ErrObj
  | .errorString a s => [.errorString a s]
  | .wrapError a m e => .wrapError a m e :: chain e

/-- An operation that is not `IsMyErr(nil)`. -/
def Op.nonNil : Op → Bool
  | .IsMyErr none => false
  | _ => true


/-! ## Sequences of calls of the package -/

/-- One call of the package by the surrounding program: `NewWithID(id)`, `New()` (with
the clock reading `now`), or an operation on the context `c` with the stop function `f`. -/
inductive Event
  | NewWithID (id : Stopctx.Value)
  | New (now : Int)
  | call (c : Addr) (f : StopFn) (o : Op)
  deriving DecidableEq, Repr

/-- The heap after one call of the package. -/
def Event.exec : Event → Heap → Except Panic Heap
  | .NewWithID id, h => .ok (Stopctx.NewWithID id h).heap
  | .New now, h => .ok (Stopctx.New now h).heap
  | .call c f o, h => step c f o h

/-- The heap after a sequence of calls of the package, stopping at the first panic. -/
def runEvents : List Event → Heap → Except Panic Heap
  | [], h => .ok h
  | e :: es, h =>
    match e.exec h with
    | .error p => .error p
    | .ok h1 => runEvents es h1

/-! ## Strings -/

theorem indexFrom_nonneg_iff (sub : List Char) :
    ∀ (l : List Char) (i : Nat), 0 ≤ indexFrom sub l i ↔ sub <:+: l := by
  intro l
  induction l with
  | nil =>
    intro i
    cases sub with
    | nil => simp [indexFrom]
    | cons a t => simp [indexFrom]
  | cons c s ih =>
    intro i
    by_cases hp : sub.isPrefixOf (c :: s) = true
    · have hpre : sub <+: c :: s := List.isPrefixOf_iff_prefix.mp hp
      simp only [indexFrom, hp, if_true]
      exact ⟨fun _ => hpre.isInfix, fun _ => Int.ofNat_nonneg i⟩
    · have hnp : ¬ sub <+: c :: s := fun h => hp (List.isPrefixOf_iff_prefix.mpr h)
      simp only [indexFrom, hp]
      rw [if_neg (by simp), ih (i + 1), List.infix_cons_iff]
      exact ⟨Or.inr, fun h => h.resolve_left hnp⟩

theorem stringsContains_iff (s sub : String) :
    stringsContains s sub = true ↔ sub.data <:+: s.data := by
  unfold stringsContains stringsIndex
  rw [decide_eq_true_iff]
  exact indexFrom_nonneg_iff sub.data s.data 0

/-! ## Errors -/

theorem ptrEq_self (e : ErrObj) : e.ptrEq e = true := by
  cases e <;> simp [ErrObj.ptrEq]

theorem errorsIsLoop_self (e : ErrObj) : errorsIsLoop e e = true := by
  cases e <;> simp [errorsIsLoop, ptrEq_self]

theorem errorsIsLoop_iff_chain (t : ErrObj) :
    ∀ e : ErrObj, errorsIsLoop e t = true ↔ ∃ x ∈ chain e, x.ptrEq t = true := by
  intro e
  induction e with
  | errorString a s => simp [errorsIsLoop, chain]
  | wrapError a m e ih => simp [errorsIsLoop, chain, ih]

theorem errorsIsLoop_wrapLayers (t e : ErrObj) (h : errorsIsLoop e t = true) :
    ∀ layers : List (Addr × String), errorsIsLoop (wrapLayers layers e) t = true := by
  intro layers
  induction layers with
  | nil => simpa [wrapLayers] using h
  | cons l rest ih =>
    obtain ⟨a, text⟩ := l
    simp [wrapLayers, wrapWith, errorsIsLoop, ih]

/-! ## The heap invariant of a created context -/

theorem NewWithID_good (id : Value) (h0 : Heap) :
    Good ⟨h0.chans.length, fmtErrorf h0.nextErr ErrStopped id⟩
      (NewWithID id h0).ctx (NewWithID id h0).stopFn (NewWithID id h0).heap := by
  refine ⟨?_, rfl, ?_, false, ?_, ?_⟩
  · simp [NewWithID]
  · simp [fmtErrorf, ErrStopped, errorsNew]
  · simp [NewWithID]
  · simp [NewWithID]

theorem NewWithID_open (id : Value) (h0 : Heap) :
    stopped (NewWithID id h0).ctx (NewWithID id h0).heap = false := by
  simp [stopped, NewWithID]

theorem stopErrOf_good {k : Context} {c : Addr} {f : StopFn} {h : Heap}
    (hg : Good k c f h) : stopErrOf c h = k.stopErr := by
  simp [stopErrOf, hg.1]

theorem call_good {k : Context} {c : Addr} {f : StopFn} {h : Heap} (hg : Good k c f h) :
    ∃ h2, f.call h = .ok h2 ∧ Good k c f h2 ∧ stopped c h2 = true ∧
      (stopped c h = true → h2 = h) := by
  obtain ⟨hk, hf, hne, b, hb, hd⟩ := hg
  cases b with
  | true =>
    refine ⟨h, ?_, ⟨hk, hf, hne, true, hb, hd⟩, ?_, fun _ => rfl⟩
    · simp [StopFn.call, onceDo, hd]
    · simp [stopped, hk, hb]
  | false =>
    have hlt : k.stopCh < h.chans.length := by
      by_contra hcon
      rw [List.getElem?_eq_none (Nat.le_of_not_lt hcon)] at hb
      cases hb
    have hlo : f.once < h.onces.length := by
      by_contra hcon
      rw [List.getElem?_eq_none (Nat.le_of_not_lt hcon)] at hd
      cases hd
    refine ⟨{ h with chans := h.chans.set k.stopCh true, onces := h.onces.set f.once true },
      ?_, ⟨hk, hf, hne, true, ?_, ?_⟩, ?_, ?_⟩
    · simp [StopFn.call, onceDo, hd, hf, hk, closeChan, hb]
    · simp [hlt]
    · simp [hlo]
    · simp [stopped, hk, hlt]
    · intro hs
      simp [stopped, hk, hb] at hs

theorem IsMyErr_good {k : Context} {c : Addr} {f : StopFn} {h : Heap} (hg : Good k c f h)
    (e : ErrObj) :
    ∃ t, k.stopErr = some t ∧
      Context.IsMyErr c (some e) h =
        .ok (errorsIsLoop e t || stringsContains e.msg t.msg, h) := by
  obtain ⟨hk, _, hne, _⟩ := hg
  obtain ⟨t, ht⟩ := Option.ne_none_iff_exists'.mp hne
  refine ⟨t, ht, ?_⟩
  by_cases hl : errorsIsLoop e t = true
  · simp [Context.IsMyErr, hk, ht, errorsIs, hl]
  · simp [Context.IsMyErr, hk, ht, errorsIs, hl, errError]

theorem IsMyErr_nil_good {k : Context} {c : Addr} {f : StopFn} {h : Heap}
    (hg : Good k c f h) : Context.IsMyErr c none h = .error .nilDereference := by
  obtain ⟨hk, _, hne, _⟩ := hg
  obtain ⟨t, ht⟩ := Option.ne_none_iff_exists'.mp hne
  simp [Context.IsMyErr, hk, ht, errorsIs, errError]

theorem Err_good {k : Context} {c : Addr} {f : StopFn} {h : Heap} (hg : Good k c f h) :
    Context.Err c h = .ok (if stopped c h = true then k.stopErr else none, h) := by
  obtain ⟨hk, _, _, b, hb, _⟩ := hg
  cases b <;> simp [Context.Err, stopped, hk, hb]

theorem step_good {k : Context} {c : Addr} {f : StopFn} {h : Heap} (hg : Good k c f h)
    (op : Op) (hop : op.nonNil = true) :
    ∃ h2, step c f op h = .ok h2 ∧ Good k c f h2 ∧
      stopped c h2 = (stopped c h || decide (op = Op.stop)) ∧
      (op ≠ Op.stop → h2 = h) := by
  cases op with
  | stop =>
    obtain ⟨h2, hc, hg2, hs, _⟩ := call_good hg
    exact ⟨h2, hc, hg2, by simp [hs], fun hn => absurd rfl hn⟩
  | Deadline => exact ⟨h, by simp [step, Context.Deadline, Except.map], hg, by simp, fun _ => rfl⟩
  | Done =>
    exact ⟨h, by simp [step, Context.Done, hg.1, Except.map], hg, by simp, fun _ => rfl⟩
  | Err =>
    exact ⟨h, by simp [step, Err_good hg, Except.map], hg, by simp, fun _ => rfl⟩
  | Value key =>
    exact ⟨h, by simp [step, Context.Value, Except.map], hg, by simp, fun _ => rfl⟩
  | IsMyErr err =>
    cases err with
    | none => simp [Op.nonNil] at hop
    | some e =>
      obtain ⟨t, _, ht⟩ := IsMyErr_good hg e
      exact ⟨h, by simp [step, ht, Except.map], hg, by simp, fun _ => rfl⟩

theorem run_good {k : Context} {c : Addr} {f : StopFn} :
    ∀ (ops : List Op) (h : Heap), Good k c f h → (∀ o ∈ ops, o.nonNil = true) →
      ∃ h2, run c f ops h = .ok h2 ∧ Good k c f h2 ∧
        stopped c h2 = (stopped c h || decide (Op.stop ∈ ops)) ∧
        (Op.stop ∉ ops → h2 = h) := by
  intro ops
  induction ops with
  | nil =>
    intro h hg _
    exact ⟨h, rfl, hg, by simp, fun _ => rfl⟩
  | cons op ops ih =>
    intro h hg hsafe
    obtain ⟨h1, hs1, hg1, hst1, hfr1⟩ := step_good hg op (hsafe op (List.mem_cons_self op ops))
    obtain ⟨h2, hr2, hg2, hst2, hfr2⟩ :=
      ih h1 hg1 (fun o ho => hsafe o (List.mem_cons_of_mem op ho))
    refine ⟨h2, by simp [run, hs1, hr2], hg2, ?_, ?_⟩
    · rw [hst2, hst1]
      by_cases hop : op = Op.stop
      · simp [hop]
      · have hne : ¬ Op.stop = op := fun hh => hop hh.symm
        simp [hop, hne]
    · intro hn
      have hop : op ≠ Op.stop := fun hh => hn (hh ▸ List.mem_cons_self op ops)
      have hrest : Op.stop ∉ ops := fun hh => hn (List.mem_cons_of_mem op hh)
      rw [hfr2 hrest, hfr1 hop]

theorem callN_fixed {f : StopFn} {h : Heap} (hfix : f.call h = .ok h) :
    ∀ n : Nat, callN f n h = .ok h := by
  intro n
  induction n with
  | zero => rfl
  | succ n ih => simp [callN, hfix, ih]

/-! ## The claims -/

/-- C1: for every identifier, the context made by `NewWithID` answers `Err()` with nil
after any operations that do not call the stop function, and once the stop function has
been called it answers, after any further operations (repeated `Err()` calls among them),
with the non-nil stop error that the constructor stored. -/
theorem C1_err_nil_until_stop_then_stopErr (id : Value) (h0 : Heap) (pre post : List Op)
    (hpre : Op.stop ∉ pre) (hsafe : ∀ o ∈ pre ++ post, o.nonNil = true) :
    stopErrOf (NewWithID id h0).ctx (NewWithID id h0).heap ≠ none ∧
    ∃ h2 h3,
      run (NewWithID id h0).ctx (NewWithID id h0).stopFn pre (NewWithID id h0).heap
        = .ok h2 ∧
      Context.Err (NewWithID id h0).ctx h2 = .ok (none, h2) ∧
      run (NewWithID id h0).ctx (NewWithID id h0).stopFn (pre ++ Op.stop :: post)
        (NewWithID id h0).heap = .ok h3 ∧
      Context.Err (NewWithID id h0).ctx h3
        = .ok (stopErrOf (NewWithID id h0).ctx (NewWithID id h0).heap, h3) := by
  have hg := NewWithID_good id h0
  have hpre_safe : ∀ o ∈ pre, o.nonNil = true :=
    fun o ho => hsafe o (List.mem_append_left post ho)
  have hall_safe : ∀ o ∈ pre ++ Op.stop :: post, o.nonNil = true := by
    intro o ho
    rcases List.mem_append.mp ho with h1 | h1
    · exact hpre_safe o h1
    · rcases List.mem_cons.mp h1 with h2 | h2
      · rw [h2]; rfl
      · exact hsafe o (List.mem_append_right pre h2)
  obtain ⟨h2, hr2, hg2, hst2, _⟩ := run_good pre _ hg hpre_safe
  obtain ⟨h3, hr3, hg3, hst3, _⟩ := run_good (pre ++ Op.stop :: post) _ hg hall_safe
  refine ⟨?_, h2, h3, hr2, ?_, hr3, ?_⟩
  · rw [stopErrOf_good hg]; exact hg.2.2.1
  · rw [Err_good hg2, hst2, NewWithID_open]
    simp [hpre]
  · rw [Err_good hg3, hst3, stopErrOf_good hg]
    simp

theorem C1_witness :
    Op.stop ∉ [Op.Err, Op.Done] ∧
    (∀ o ∈ [Op.Err, Op.Done] ++ [Op.Err, Op.stop, Op.Err], o.nonNil = true) ∧
    (stopErrOf (NewWithID (.int 42) Heap.init).ctx (NewWithID (.int 42) Heap.init).heap
        ≠ none ∧
      ∃ h2 h3,
        run (NewWithID (.int 42) Heap.init).ctx (NewWithID (.int 42) Heap.init).stopFn
          [Op.Err, Op.Done] (NewWithID (.int 42) Heap.init).heap = .ok h2 ∧
        Context.Err (NewWithID (.int 42) Heap.init).ctx h2 = .ok (none, h2) ∧
        run (NewWithID (.int 42) Heap.init).ctx (NewWithID (.int 42) Heap.init).stopFn
          ([Op.Err, Op.Done] ++ Op.stop :: [Op.Err, Op.stop, Op.Err])
          (NewWithID (.int 42) Heap.init).heap = .ok h3 ∧
        Context.Err (NewWithID (.int 42) Heap.init).ctx h3
          = .ok (stopErrOf (NewWithID (.int 42) Heap.init).ctx
              (NewWithID (.int 42) Heap.init).heap, h3)) :=
  ⟨by decide, by decide,
    C1_err_nil_until_stop_then_stopErr (.int 42) Heap.init [Op.Err, Op.Done]
      [Op.Err, Op.stop, Op.Err] (by decide) (by decide)⟩

/-- C2: on a context made by `NewWithID`, open or stopped, the call `IsMyErr(nil)` does
not return false: `errors.Is(nil, stopErr)` is false and the call `err.Error()` on the
nil error then panics. -/
theorem C2_isMyErr_nil_panics (id : Value) (h0 : Heap) (ops : List Op)
    (hsafe : ∀ o ∈ ops, o.nonNil = true) :
    ∃ h2,
      run (NewWithID id h0).ctx (NewWithID id h0).stopFn ops (NewWithID id h0).heap
        = .ok h2 ∧
      Context.IsMyErr (NewWithID id h0).ctx none h2 = .error Panic.nilDereference := by
  obtain ⟨h2, hr2, hg2, _, _⟩ := run_good ops _ (NewWithID_good id h0) hsafe
  exact ⟨h2, hr2, IsMyErr_nil_good hg2⟩

theorem C2_witness :
    (∀ o ∈ [Op.stop], o.nonNil = true) ∧
    ∃ h2,
      run (NewWithID (.int 42) Heap.init).ctx (NewWithID (.int 42) Heap.init).stopFn
        [Op.stop] (NewWithID (.int 42) Heap.init).heap = .ok h2 ∧
      Context.IsMyErr (NewWithID (.int 42) Heap.init).ctx none h2
        = .error Panic.nilDereference :=
  ⟨by decide, C2_isMyErr_nil_panics (.int 42) Heap.init [Op.stop] (by decide)⟩

/-- C3, as stated, fails: two contexts made by two separate `NewWithID` calls with the
same identifier `1` have stop errors with the same text, and the first context accepts
the stop error of the second. -/
theorem C3_counterexample :
    Context.IsMyErr (NewWithID (.int 1) Heap.init).ctx
      (stopErrOf (NewWithID (.int 1) (NewWithID (.int 1) Heap.init).heap).ctx
        (NewWithID (.int 1) (NewWithID (.int 1) Heap.init).heap).heap)
      (NewWithID (.int 1) (NewWithID (.int 1) Heap.init).heap).heap
    = .ok (true, (NewWithID (.int 1) (NewWithID (.int 1) Heap.init).heap).heap) := by
  decide

/-- Two contexts in one heap: if A, made by `NewWithID(idA)` in `h0`, is still in the
heap `h` and the next free error address of `h` is past that of `h0`, then for B made by
`NewWithID(idB)` in `h` neither stop error matches the other structurally, and each
`IsMyErr` on the stop error of the other returns whether its own text is a substring of
the other text. -/
theorem isMyErr_two_contexts_later_heap (idA idB : Value) (h0 h : Heap)
    (hA : h.ctxs[(NewWithID idA h0).ctx]?
      = (NewWithID idA h0).heap.ctxs[(NewWithID idA h0).ctx]?)
    (hnext : h0.nextErr < h.nextErr) :
    ∃ eA eB,
      stopErrOf (NewWithID idA h0).ctx (NewWithID idB h).heap = some eA ∧
      stopErrOf (NewWithID idB h).ctx (NewWithID idB h).heap = some eB ∧
      errorsIs (some eB) (some eA) = false ∧
      errorsIs (some eA) (some eB) = false ∧
      Context.IsMyErr (NewWithID idA h0).ctx (some eB) (NewWithID idB h).heap
        = .ok (decide (eA.msg.data <:+: eB.msg.data), (NewWithID idB h).heap) ∧
      Context.IsMyErr (NewWithID idB h).ctx (some eA) (NewWithID idB h).heap
        = .ok (decide (eB.msg.data <:+: eA.msg.data), (NewWithID idB h).heap) := by
  have hkA : h.ctxs[h0.ctxs.length]?
      = some ⟨h0.chans.length, fmtErrorf h0.nextErr ErrStopped idA⟩ := by
    rw [show h0.ctxs.length = (NewWithID idA h0).ctx from rfl, hA]
    simp [NewWithID]
  have hlt : h0.ctxs.length < h.ctxs.length := by
    by_contra hcon
    rw [List.getElem?_eq_none (Nat.le_of_not_lt hcon)] at hkA
    cases hkA
  have hctxA : (NewWithID idB h).heap.ctxs[(NewWithID idA h0).ctx]?
      = some ⟨h0.chans.length, fmtErrorf h0.nextErr ErrStopped idA⟩ := by
    have : (NewWithID idB h).heap.ctxs[(NewWithID idA h0).ctx]? = h.ctxs[h0.ctxs.length]? := by
      simp [NewWithID, List.getElem?_append_left hlt]
    rw [this, hkA]
  have hctxB : (NewWithID idB h).heap.ctxs[(NewWithID idB h).ctx]?
      = some ⟨h.chans.length, fmtErrorf h.nextErr ErrStopped idB⟩ := by
    simp [NewWithID]
  have hne1 : h.nextErr ≠ h0.nextErr := Nat.ne_of_gt hnext
  have hne2 : h0.nextErr ≠ h.nextErr := Nat.ne_of_lt hnext
  refine ⟨.wrapError h0.nextErr ("context stopped" ++ " [id = " ++ fmtV idA ++ "]")
      (.errorString 0 "context stopped"),
    .wrapError h.nextErr ("context stopped" ++ " [id = " ++ fmtV idB ++ "]")
      (.errorString 0 "context stopped"), ?_, ?_, ?_, ?_, ?_, ?_⟩
  · simp [stopErrOf, hctxA, fmtErrorf, ErrStopped, errorsNew, ErrObj.msg]
  · simp [stopErrOf, hctxB, fmtErrorf, ErrStopped, errorsNew, ErrObj.msg]
  · simp [errorsIs, errorsIsLoop, ErrObj.ptrEq, hne1]
  · simp [errorsIs, errorsIsLoop, ErrObj.ptrEq, hne2]
  · simp only [Context.IsMyErr, hctxA, fmtErrorf, ErrStopped, errorsNew, errorsIs,
      errorsIsLoop, ErrObj.ptrEq, errError, ErrObj.msg]
    rw [if_neg (by simp [hne1])]
    congr 2
    rw [Bool.eq_iff_iff, stringsContains_iff, decide_eq_true_iff]
  · simp only [Context.IsMyErr, hctxB, fmtErrorf, ErrStopped, errorsNew, errorsIs,
      errorsIsLoop, ErrObj.ptrEq, errError, ErrObj.msg]
    rw [if_neg (by simp [hne2])]
    congr 2
    rw [Bool.eq_iff_iff, stringsContains_iff, decide_eq_true_iff]

/-- Distinct identifiers do not prevent the textual match: with the identifiers `1` and
the string `1] [id = 2` the text of the first stop error is a substring of the text of
the second, and the first context accepts the stop error of the second. -/
theorem isMyErr_other_distinct_ids_example :
    Context.IsMyErr (NewWithID (.int 1) Heap.init).ctx
      (stopErrOf (NewWithID (.str "1] [id = 2") (NewWithID (.int 1) Heap.init).heap).ctx
        (NewWithID (.str "1] [id = 2") (NewWithID (.int 1) Heap.init).heap).heap)
      (NewWithID (.str "1] [id = 2") (NewWithID (.int 1) Heap.init).heap).heap
    = .ok (true, (NewWithID (.str "1] [id = 2") (NewWithID (.int 1) Heap.init).heap).heap) := by
  decide

/-- C4: for every identifier, the context A made by `NewWithID` accepts its own stop
error, bare (no layer) or wrapped in any number of `%w` layers with any added text, and
it does so after any operations on A, so whether or not A has been stopped. -/
theorem C4_isMyErr_own_wrapped (id : Value) (h0 : Heap) (ops : List Op)
    (layers : List (Addr × String)) (hsafe : ∀ o ∈ ops, o.nonNil = true) :
    ∃ e h2,
      stopErrOf (NewWithID id h0).ctx (NewWithID id h0).heap = some e ∧
      run (NewWithID id h0).ctx (NewWithID id h0).stopFn ops (NewWithID id h0).heap
        = .ok h2 ∧
      Context.IsMyErr (NewWithID id h0).ctx (some (wrapLayers layers e)) h2
        = .ok (true, h2) := by
  have hg := NewWithID_good id h0
  obtain ⟨h2, hr2, hg2, _, _⟩ := run_good ops _ hg hsafe
  obtain ⟨t, ht, _⟩ := IsMyErr_good hg2 (.errorString 0 "")
  obtain ⟨t2, ht2, hres⟩ := IsMyErr_good hg2 (wrapLayers layers t)
  have htt : t2 = t := Option.some.inj (ht2.symm.trans ht)
  subst htt
  refine ⟨t2, h2, ?_, hr2, ?_⟩
  · rw [stopErrOf_good hg, ht]
  · rw [hres, errorsIsLoop_wrapLayers t2 t2 (errorsIsLoop_self t2) layers]
    rfl

theorem C4_witness :
    (∀ o ∈ [Op.Err, Op.stop], o.nonNil = true) ∧
    ∃ e h2,
      stopErrOf (NewWithID (.int 42) Heap.init).ctx (NewWithID (.int 42) Heap.init).heap
        = some e ∧
      run (NewWithID (.int 42) Heap.init).ctx (NewWithID (.int 42) Heap.init).stopFn
        [Op.Err, Op.stop] (NewWithID (.int 42) Heap.init).heap = .ok h2 ∧
      Context.IsMyErr (NewWithID (.int 42) Heap.init).ctx
        (some (wrapLayers [(7, "handler"), (5, "worker")] e)) h2 = .ok (true, h2) :=
  ⟨by decide,
    C4_isMyErr_own_wrapped (.int 42) Heap.init [Op.Err, Op.stop]
      [(7, "handler"), (5, "worker")] (by decide)⟩

/-- C5: let `s` be the text of the stop error of the context A made by `NewWithID`.
After any operations on A, A accepts a fresh plain error `errors.New(s)` (at any
address, with no wrap chain), and it accepts every non-nil error whose text has `s` as a
substring. -/
theorem C5_isMyErr_text_match (id : Value) (h0 : Heap) (ops : List Op) (s : String)
    (err : ErrObj) (hsafe : ∀ o ∈ ops, o.nonNil = true)
    (hs : errError (stopErrOf (NewWithID id h0).ctx (NewWithID id h0).heap) = .ok s)
    (hsub : s.data <:+: err.msg.data) :
    ∃ h2,
      run (NewWithID id h0).ctx (NewWithID id h0).stopFn ops (NewWithID id h0).heap
        = .ok h2 ∧
      (∀ a : Addr, Context.IsMyErr (NewWithID id h0).ctx (errorsNew a s) h2
        = .ok (true, h2)) ∧
      Context.IsMyErr (NewWithID id h0).ctx (some err) h2 = .ok (true, h2) := by
  have hg := NewWithID_good id h0
  obtain ⟨h2, hr2, hg2, _, _⟩ := run_good ops _ hg hsafe
  obtain ⟨t, ht, hres⟩ := IsMyErr_good hg2 err
  have hst : s = t.msg := by
    rw [stopErrOf_good hg, ht] at hs
    simp only [errError, Except.ok.injEq] at hs
    exact hs.symm
  subst hst
  refine ⟨h2, hr2, ?_, ?_⟩
  · intro a
    obtain ⟨t2, ht2, hres2⟩ := IsMyErr_good hg2 (.errorString a t.msg)
    have htt : t2 = t := Option.some.inj (ht2.symm.trans ht)
    subst htt
    rw [errorsNew, hres2]
    have hc : stringsContains (ErrObj.errorString a t2.msg).msg t2.msg = true :=
      (stringsContains_iff _ _).mpr List.infix_rfl
    rw [hc, Bool.or_true]
  · have hc : stringsContains err.msg t.msg = true := (stringsContains_iff _ _).mpr hsub
    rw [hres, hc, Bool.or_true]

theorem C5_witness :
    (∀ o ∈ [Op.stop], o.nonNil = true) ∧
    errError (stopErrOf (NewWithID (.int 42) Heap.init).ctx (NewWithID (.int 42) Heap.init).heap)
      = .ok "context stopped [id = 42]" ∧
    "context stopped [id = 42]".data
      <:+: (ErrObj.errorString 9 "rpc: context stopped [id = 42] (remote)").msg.data ∧
    ∃ h2,
      run (NewWithID (.int 42) Heap.init).ctx (NewWithID (.int 42) Heap.init).stopFn
        [Op.stop] (NewWithID (.int 42) Heap.init).heap = .ok h2 ∧
      (∀ a : Addr, Context.IsMyErr (NewWithID (.int 42) Heap.init).ctx
        (errorsNew a "context stopped [id = 42]") h2 = .ok (true, h2)) ∧
      Context.IsMyErr (NewWithID (.int 42) Heap.init).ctx
        (some (ErrObj.errorString 9 "rpc: context stopped [id = 42] (remote)")) h2
        = .ok (true, h2) :=
  ⟨by decide, by decide, by decide,
    C5_isMyErr_text_match (.int 42) Heap.init [Op.stop] "context stopped [id = 42]"
      (ErrObj.errorString 9 "rpc: context stopped [id = 42] (remote)")
      (by decide) (by decide) (by decide)⟩

/-- C6: for the context made by `NewWithID`, after any operations on it, and every
non-nil error `err`: `IsMyErr(err)` returns, and it returns true if and only if
`errors.Is(err, stopErr)` holds, that is the wrap chain of `err` contains the stop error
value, or the text of `err` has the text of the stop error as a substring.  For the
unrelated error `errors.New("unrelated")` it returns false. -/
theorem C6_isMyErr_iff (id : Value) (h0 : Heap) (ops : List Op) (err : ErrObj)
    (hsafe : ∀ o ∈ ops, o.nonNil = true) :
    ∃ e h2 b,
      stopErrOf (NewWithID id h0).ctx (NewWithID id h0).heap = some e ∧
      run (NewWithID id h0).ctx (NewWithID id h0).stopFn ops (NewWithID id h0).heap
        = .ok h2 ∧
      Context.IsMyErr (NewWithID id h0).ctx (some err) h2 = .ok (b, h2) ∧
      (b = true ↔ (errorsIs (some err) (some e) = true ∨ e.msg.data <:+: err.msg.data)) ∧
      (errorsIs (some err) (some e) = true ↔ ∃ x ∈ chain err, x.ptrEq e = true) ∧
      (∀ a : Addr, Context.IsMyErr (NewWithID id h0).ctx (errorsNew a "unrelated") h2
        = .ok (false, h2)) := by
  have hg := NewWithID_good id h0
  obtain ⟨h2, hr2, hg2, _, _⟩ := run_good ops _ hg hsafe
  obtain ⟨t, ht, hres⟩ := IsMyErr_good hg2 err
  have hmsg : t.msg = "context stopped" ++ " [id = " ++ fmtV id ++ "]" := by
    have h1 : fmtErrorf h0.nextErr ErrStopped id = some t := ht
    simp only [fmtErrorf, ErrStopped, errorsNew, Option.some.injEq] at h1
    rw [← h1]
    rfl
  refine ⟨t, h2, _, ?_, hr2, hres, ?_, ?_, ?_⟩
  · rw [stopErrOf_good hg, ht]
  · rw [Bool.or_eq_true, stringsContains_iff]
    rfl
  · exact errorsIsLoop_iff_chain t err
  · intro a
    obtain ⟨t2, ht2, hres2⟩ := IsMyErr_good hg2 (.errorString a "unrelated")
    have htt : t2 = t := Option.some.inj (ht2.symm.trans ht)
    subst htt
    have hloop : errorsIsLoop (ErrObj.errorString a "unrelated") t2 = false := by
      have h1 : fmtErrorf h0.nextErr ErrStopped id = some t2 := ht
      simp only [fmtErrorf, ErrStopped, errorsNew, Option.some.injEq] at h1
      rw [← h1]
      rfl
    have hcont : stringsContains (ErrObj.errorString a "unrelated").msg t2.msg = false := by
      rw [← Bool.not_eq_true, stringsContains_iff]
      intro hin
      have hlen := hin.length_le
      rw [hmsg] at hlen
      simp [ErrObj.msg, String.data_append] at hlen
    rw [errorsNew, hres2, hloop, hcont]
    rfl

theorem C6_witness :
    (∀ o ∈ [Op.stop, Op.Err], o.nonNil = true) ∧
    ∃ e h2 b,
      stopErrOf (NewWithID (.int 42) Heap.init).ctx (NewWithID (.int 42) Heap.init).heap
        = some e ∧
      run (NewWithID (.int 42) Heap.init).ctx (NewWithID (.int 42) Heap.init).stopFn
        [Op.stop, Op.Err] (NewWithID (.int 42) Heap.init).heap = .ok h2 ∧
      Context.IsMyErr (NewWithID (.int 42) Heap.init).ctx
        (some (ErrObj.errorString 9 "context stopped [id = 4]")) h2 = .ok (b, h2) ∧
      (b = true ↔
        (errorsIs (some (ErrObj.errorString 9 "context stopped [id = 4]")) (some e) = true ∨
          e.msg.data <:+: (ErrObj.errorString 9 "context stopped [id = 4]").msg.data)) ∧
      (errorsIs (some (ErrObj.errorString 9 "context stopped [id = 4]")) (some e) = true ↔
        ∃ x ∈ chain (ErrObj.errorString 9 "context stopped [id = 4]"), x.ptrEq e = true) ∧
      (∀ a : Addr, Context.IsMyErr (NewWithID (.int 42) Heap.init).ctx
        (errorsNew a "unrelated") h2 = .ok (false, h2)) :=
  ⟨by decide,
    C6_isMyErr_iff (.int 42) Heap.init [Op.stop, Op.Err]
      (ErrObj.errorString 9 "context stopped [id = 4]") (by decide)⟩

/-- C7: for every identifier, the stop error of the context made by `NewWithID`
matches the exported sentinel, `errors.Is(stopErr, ErrStopped)`, bare (no layer) and
after wrapping in any number of further `%w` layers. -/
theorem C7_stopErr_is_ErrStopped (id : Value) (h0 : Heap) (layers : List (Addr × String)) :
    ∃ e,
      stopErrOf (NewWithID id h0).ctx (NewWithID id h0).heap = some e ∧
      errorsIs (some e) ErrStopped = true ∧
      errorsIs (some (wrapLayers layers e)) ErrStopped = true := by
  have hg := NewWithID_good id h0
  have hbase : errorsIsLoop
      (.wrapError h0.nextErr ("context stopped" ++ " [id = " ++ fmtV id ++ "]")
        (.errorString 0 "context stopped"))
      (.errorString 0 "context stopped") = true := by
    simp [errorsIsLoop, ErrObj.ptrEq]
  refine ⟨.wrapError h0.nextErr ("context stopped" ++ " [id = " ++ fmtV id ++ "]")
      (.errorString 0 "context stopped"), ?_, ?_, ?_⟩
  · rw [stopErrOf_good hg]
    rfl
  · exact hbase
  · exact errorsIsLoop_wrapLayers _ _ hbase layers

/-- C8: the stop function is idempotent.  For the context made by `NewWithID`, after any
operations on it, and for every `n ≥ 1`: `n` calls of the stop function in sequence
return without a panic and leave exactly the heap that one call leaves; in that heap the
context is stopped, its stop error is the one stored at construction and `Err()` returns
it; a further call changes nothing, and the channel is closed, so a second `close` would
have panicked. -/
theorem C8_stop_idempotent (id : Value) (h0 : Heap) (pre : List Op) (n : Nat)
    (hsafe : ∀ o ∈ pre, o.nonNil = true) (hn : 1 ≤ n) :
    ∃ h2 h3 ch,
      run (NewWithID id h0).ctx (NewWithID id h0).stopFn pre (NewWithID id h0).heap
        = .ok h2 ∧
      (NewWithID id h0).stopFn.call h2 = .ok h3 ∧
      callN (NewWithID id h0).stopFn n h2 = .ok h3 ∧
      (NewWithID id h0).stopFn.call h3 = .ok h3 ∧
      stopped (NewWithID id h0).ctx h3 = true ∧
      stopErrOf (NewWithID id h0).ctx h3
        = stopErrOf (NewWithID id h0).ctx (NewWithID id h0).heap ∧
      Context.Err (NewWithID id h0).ctx h3
        = .ok (stopErrOf (NewWithID id h0).ctx (NewWithID id h0).heap, h3) ∧
      Context.Done (NewWithID id h0).ctx h3 = .ok (ch, h3) ∧
      closeChan ch h3 = .error Panic.closeOfClosedChannel := by
  have hg := NewWithID_good id h0
  obtain ⟨h2, hr2, hg2, _, _⟩ := run_good pre _ hg hsafe
  obtain ⟨h3, hc3, hg3, hst3, _⟩ := call_good hg2
  obtain ⟨h4, hc4, _, _, hfix⟩ := call_good hg3
  have hc33 : (NewWithID id h0).stopFn.call h3 = .ok h3 := by
    rw [hc4, hfix hst3]
  have hclosed : h3.chans[h0.chans.length]? = some true := by
    have hs := hst3
    simp only [stopped, hg3.1] at hs
    simpa using hs
  refine ⟨h2, h3, h0.chans.length, hr2, hc3, ?_, hc33, hst3, ?_, ?_, ?_, ?_⟩
  · obtain ⟨m, rfl⟩ : ∃ m, n = m + 1 := ⟨n - 1, by omega⟩
    simp [callN, hc3, callN_fixed hc33 m]
  · rw [stopErrOf_good hg3, stopErrOf_good hg]
  · rw [Err_good hg3, hst3, stopErrOf_good hg]
    rfl
  · simp [Context.Done, hg3.1]
  · simp [closeChan, hclosed]

theorem C8_witness :
    (∀ o ∈ [Op.Err, Op.Done], o.nonNil = true) ∧ 1 ≤ 3 ∧
    ∃ h2 h3 ch,
      run (NewWithID (.int 42) Heap.init).ctx (NewWithID (.int 42) Heap.init).stopFn
        [Op.Err, Op.Done] (NewWithID (.int 42) Heap.init).heap = .ok h2 ∧
      (NewWithID (.int 42) Heap.init).stopFn.call h2 = .ok h3 ∧
      callN (NewWithID (.int 42) Heap.init).stopFn 3 h2 = .ok h3 ∧
      (NewWithID (.int 42) Heap.init).stopFn.call h3 = .ok h3 ∧
      stopped (NewWithID (.int 42) Heap.init).ctx h3 = true ∧
      stopErrOf (NewWithID (.int 42) Heap.init).ctx h3
        = stopErrOf (NewWithID (.int 42) Heap.init).ctx (NewWithID (.int 42) Heap.init).heap ∧
      Context.Err (NewWithID (.int 42) Heap.init).ctx h3
        = .ok (stopErrOf (NewWithID (.int 42) Heap.init).ctx
            (NewWithID (.int 42) Heap.init).heap, h3) ∧
      Context.Done (NewWithID (.int 42) Heap.init).ctx h3 = .ok (ch, h3) ∧
      closeChan ch h3 = .error Panic.closeOfClosedChannel :=
  ⟨by decide, by decide,
    C8_stop_idempotent (.int 42) Heap.init [Op.Err, Op.Done] 3 (by decide) (by decide)⟩

/-- C9: for every identifier, the text of the stop error of the context made by
`NewWithID` is exactly `"context stopped [id = "`, then the `%v` text of the identifier,
then `"]"`; it contains `"context stopped"` and the text of the identifier, which is
`"42"` for the integer 42. -/
theorem C9_stopErr_text (id : Value) (h0 : Heap) :
    errError (stopErrOf (NewWithID id h0).ctx (NewWithID id h0).heap)
      = .ok ("context stopped [id = " ++ fmtV id ++ "]") ∧
    stringsContains ("context stopped [id = " ++ fmtV id ++ "]") "context stopped" = true ∧
    stringsContains ("context stopped [id = " ++ fmtV id ++ "]") (fmtV id) = true ∧
    fmtV (.int 42) = "42" := by
  have hg := NewWithID_good id h0
  refine ⟨?_, ?_, ?_, by decide⟩
  · rw [stopErrOf_good hg]
    rfl
  · rw [stringsContains_iff]
    refine ⟨[], " [id = ".data ++ (fmtV id).data ++ "]".data, ?_⟩
    simp [String.data_append]
  · rw [stringsContains_iff]
    exact ⟨"context stopped [id = ".data, "]".data, by simp [String.data_append]⟩

/-- C10: the step from open to stopped is never undone and the stop error never changes.
For the context made by `NewWithID` and any two sequences of operations run one after
the other: both run without a panic, the context is stopped after the second exactly
when it was stopped after the first or the second calls the stop function (so once
stopped it stays stopped), and after each of them the stop error is the value stored at
construction. -/
theorem C10_stopped_irreversible (id : Value) (h0 : Heap) (ops1 ops2 : List Op)
    (hsafe : ∀ o ∈ ops1 ++ ops2, o.nonNil = true) :
    ∃ h2 h3,
      run (NewWithID id h0).ctx (NewWithID id h0).stopFn ops1 (NewWithID id h0).heap
        = .ok h2 ∧
      run (NewWithID id h0).ctx (NewWithID id h0).stopFn ops2 h2 = .ok h3 ∧
      stopped (NewWithID id h0).ctx h2 = decide (Op.stop ∈ ops1) ∧
      stopped (NewWithID id h0).ctx h3
        = (stopped (NewWithID id h0).ctx h2 || decide (Op.stop ∈ ops2)) ∧
      (stopped (NewWithID id h0).ctx h2 = true → stopped (NewWithID id h0).ctx h3 = true) ∧
      stopErrOf (NewWithID id h0).ctx h2
        = stopErrOf (NewWithID id h0).ctx (NewWithID id h0).heap ∧
      stopErrOf (NewWithID id h0).ctx h3
        = stopErrOf (NewWithID id h0).ctx (NewWithID id h0).heap := by
  have hg := NewWithID_good id h0
  obtain ⟨h2, hr2, hg2, hst2, _⟩ :=
    run_good ops1 _ hg (fun o ho => hsafe o (List.mem_append_left ops2 ho))
  obtain ⟨h3, hr3, hg3, hst3, _⟩ :=
    run_good ops2 _ hg2 (fun o ho => hsafe o (List.mem_append_right ops1 ho))
  refine ⟨h2, h3, hr2, hr3, ?_, hst3, ?_, ?_, ?_⟩
  · rw [hst2, NewWithID_open]
    simp
  · intro hs
    rw [hst3, hs]
    rfl
  · rw [stopErrOf_good hg2, stopErrOf_good hg]
  · rw [stopErrOf_good hg3, stopErrOf_good hg]

theorem C10_witness :
    (∀ o ∈ [Op.Err, Op.stop] ++ [Op.Deadline, Op.Done, Op.Err, Op.Value (.int 1),
        Op.IsMyErr (errorsNew 9 "unrelated"), Op.stop], o.nonNil = true) ∧
    ∃ h2 h3,
      run (NewWithID (.int 42) Heap.init).ctx (NewWithID (.int 42) Heap.init).stopFn
        [Op.Err, Op.stop] (NewWithID (.int 42) Heap.init).heap = .ok h2 ∧
      run (NewWithID (.int 42) Heap.init).ctx (NewWithID (.int 42) Heap.init).stopFn
        [Op.Deadline, Op.Done, Op.Err, Op.Value (.int 1),
          Op.IsMyErr (errorsNew 9 "unrelated"), Op.stop] h2 = .ok h3 ∧
      stopped (NewWithID (.int 42) Heap.init).ctx h2 = decide (Op.stop ∈ [Op.Err, Op.stop]) ∧
      stopped (NewWithID (.int 42) Heap.init).ctx h3
        = (stopped (NewWithID (.int 42) Heap.init).ctx h2 ||
            decide (Op.stop ∈ [Op.Deadline, Op.Done, Op.Err, Op.Value (.int 1),
              Op.IsMyErr (errorsNew 9 "unrelated"), Op.stop])) ∧
      (stopped (NewWithID (.int 42) Heap.init).ctx h2 = true →
        stopped (NewWithID (.int 42) Heap.init).ctx h3 = true) ∧
      stopErrOf (NewWithID (.int 42) Heap.init).ctx h2
        = stopErrOf (NewWithID (.int 42) Heap.init).ctx (NewWithID (.int 42) Heap.init).heap ∧
      stopErrOf (NewWithID (.int 42) Heap.init).ctx h3
        = stopErrOf (NewWithID (.int 42) Heap.init).ctx (NewWithID (.int 42) Heap.init).heap :=
  ⟨by decide,
    C10_stopped_irreversible (.int 42) Heap.init [Op.Err, Op.stop]
      [Op.Deadline, Op.Done, Op.Err, Op.Value (.int 1),
        Op.IsMyErr (errorsNew 9 "unrelated"), Op.stop] (by decide)⟩

/-- C11: only the stop function changes the state of a context.  For the context made
by `NewWithID`, in any heap it reaches: `Deadline`, `Done`, `Err`, `Value` (any key) and
`IsMyErr` (any non-nil argument) return with the heap unchanged, `IsMyErr(nil)` panics
without a heap change, and any sequence of such calls leaves the heap, so the
open/stopped status and the stop error, exactly as it was.  A context on which the stop
function is never called is still open after any such sequence and `Err()` is nil, while
one call of the stop function does change the status. -/
theorem C11_accessors_change_nothing (id : Value) (h0 : Heap) (ops acc : List Op)
    (key : Value) (err : ErrObj) (hsafe : ∀ o ∈ ops ++ acc, o.nonNil = true)
    (hacc : Op.stop ∉ acc) :
    ∃ h2 h3 ch e b,
      run (NewWithID id h0).ctx (NewWithID id h0).stopFn ops (NewWithID id h0).heap
        = .ok h2 ∧
      Context.Deadline (NewWithID id h0).ctx h2 = .ok ((Time.zero, false), h2) ∧
      Context.Done (NewWithID id h0).ctx h2 = .ok (ch, h2) ∧
      Context.Err (NewWithID id h0).ctx h2 = .ok (e, h2) ∧
      Context.Value (NewWithID id h0).ctx key h2 = .ok (Value.nil, h2) ∧
      Context.IsMyErr (NewWithID id h0).ctx (some err) h2 = .ok (b, h2) ∧
      Context.IsMyErr (NewWithID id h0).ctx none h2 = .error Panic.nilDereference ∧
      run (NewWithID id h0).ctx (NewWithID id h0).stopFn acc h2 = .ok h2 ∧
      run (NewWithID id h0).ctx (NewWithID id h0).stopFn acc (NewWithID id h0).heap
        = .ok (NewWithID id h0).heap ∧
      stopped (NewWithID id h0).ctx (NewWithID id h0).heap = false ∧
      Context.Err (NewWithID id h0).ctx (NewWithID id h0).heap
        = .ok (none, (NewWithID id h0).heap) ∧
      (NewWithID id h0).stopFn.call (NewWithID id h0).heap = .ok h3 ∧
      stopped (NewWithID id h0).ctx h3 = true := by
  have hg := NewWithID_good id h0
  have hsafe_acc : ∀ o ∈ acc, o.nonNil = true :=
    fun o ho => hsafe o (List.mem_append_right ops ho)
  obtain ⟨h2, hr2, hg2, _, _⟩ :=
    run_good ops _ hg (fun o ho => hsafe o (List.mem_append_left acc ho))
  obtain ⟨h3, hc3, _, hst3, _⟩ := call_good hg
  obtain ⟨t, _, hres⟩ := IsMyErr_good hg2 err
  obtain ⟨ha, hra, _, _, hfra⟩ := run_good acc _ hg2 hsafe_acc
  obtain ⟨hb, hrb, _, _, hfrb⟩ := run_good acc _ hg hsafe_acc
  refine ⟨h2, h3, h0.chans.length, _, _, hr2, rfl, ?_, Err_good hg2, rfl, hres,
    IsMyErr_nil_good hg2, ?_, ?_, NewWithID_open id h0, ?_, hc3, hst3⟩
  · simp [Context.Done, hg2.1]
  · rw [hra, hfra hacc]
  · rw [hrb, hfrb hacc]
  · rw [Err_good hg, NewWithID_open]
    rfl

theorem C11_witness :
    (∀ o ∈ [Op.Err, Op.stop] ++ [Op.Deadline, Op.Done, Op.Err, Op.Value (.str "k"),
        Op.IsMyErr (errorsNew 9 "unrelated")], o.nonNil = true) ∧
    Op.stop ∉ [Op.Deadline, Op.Done, Op.Err, Op.Value (.str "k"),
        Op.IsMyErr (errorsNew 9 "unrelated")] ∧
    ∃ h2 h3 ch e b,
      run (NewWithID (.int 42) Heap.init).ctx (NewWithID (.int 42) Heap.init).stopFn
        [Op.Err, Op.stop] (NewWithID (.int 42) Heap.init).heap = .ok h2 ∧
      Context.Deadline (NewWithID (.int 42) Heap.init).ctx h2 = .ok ((Time.zero, false), h2) ∧
      Context.Done (NewWithID (.int 42) Heap.init).ctx h2 = .ok (ch, h2) ∧
      Context.Err (NewWithID (.int 42) Heap.init).ctx h2 = .ok (e, h2) ∧
      Context.Value (NewWithID (.int 42) Heap.init).ctx (.str "k") h2 = .ok (Value.nil, h2) ∧
      Context.IsMyErr (NewWithID (.int 42) Heap.init).ctx
        (some (ErrObj.errorString 9 "unrelated")) h2 = .ok (b, h2) ∧
      Context.IsMyErr (NewWithID (.int 42) Heap.init).ctx none h2
        = .error Panic.nilDereference ∧
      run (NewWithID (.int 42) Heap.init).ctx (NewWithID (.int 42) Heap.init).stopFn
        [Op.Deadline, Op.Done, Op.Err, Op.Value (.str "k"),
          Op.IsMyErr (errorsNew 9 "unrelated")] h2 = .ok h2 ∧
      run (NewWithID (.int 42) Heap.init).ctx (NewWithID (.int 42) Heap.init).stopFn
        [Op.Deadline, Op.Done, Op.Err, Op.Value (.str "k"),
          Op.IsMyErr (errorsNew 9 "unrelated")] (NewWithID (.int 42) Heap.init).heap
        = .ok (NewWithID (.int 42) Heap.init).heap ∧
      stopped (NewWithID (.int 42) Heap.init).ctx (NewWithID (.int 42) Heap.init).heap
        = false ∧
      Context.Err (NewWithID (.int 42) Heap.init).ctx (NewWithID (.int 42) Heap.init).heap
        = .ok (none, (NewWithID (.int 42) Heap.init).heap) ∧
      (NewWithID (.int 42) Heap.init).stopFn.call (NewWithID (.int 42) Heap.init).heap
        = .ok h3 ∧
      stopped (NewWithID (.int 42) Heap.init).ctx h3 = true :=
  ⟨by decide, by decide,
    C11_accessors_change_nothing (.int 42) Heap.init [Op.Err, Op.stop]
      [Op.Deadline, Op.Done, Op.Err, Op.Value (.str "k"),
        Op.IsMyErr (errorsNew 9 "unrelated")] (.str "k") (ErrObj.errorString 9 "unrelated")
      (by decide) (by decide)⟩

/-- C12: `Deadline()` reports no deadline, `ok = false` with the zero time, on every
receiver and in every heap; in particular on the context made by `NewWithID` while it is
open and after its stop function has closed it. -/
theorem C12_deadline_none (id : Value) (h0 : Heap) :
    (∀ (c : Addr) (h : Heap), Context.Deadline c h = .ok ((⟨0, 0, none⟩, false), h)) ∧
    ∃ h3,
      (NewWithID id h0).stopFn.call (NewWithID id h0).heap = .ok h3 ∧
      stopped (NewWithID id h0).ctx (NewWithID id h0).heap = false ∧
      Context.Deadline (NewWithID id h0).ctx (NewWithID id h0).heap
        = .ok ((⟨0, 0, none⟩, false), (NewWithID id h0).heap) ∧
      stopped (NewWithID id h0).ctx h3 = true ∧
      Context.Deadline (NewWithID id h0).ctx h3 = .ok ((⟨0, 0, none⟩, false), h3) := by
  obtain ⟨h3, hc3, _, hst3, _⟩ := call_good (NewWithID_good id h0)
  exact ⟨fun _ _ => rfl, h3, hc3, NewWithID_open id h0, rfl, hst3, rfl⟩

/-- C13: `Value(key)` returns nil for every key, on every receiver and in every heap; in
particular on the context made by `NewWithID` while it is open and after its stop
function has closed it. -/
theorem C13_value_nil (id : Value) (h0 : Heap) (key : Value) :
    (∀ (c : Addr) (h : Heap), Context.Value c key h = .ok (Value.nil, h)) ∧
    ∃ h3,
      (NewWithID id h0).stopFn.call (NewWithID id h0).heap = .ok h3 ∧
      stopped (NewWithID id h0).ctx (NewWithID id h0).heap = false ∧
      Context.Value (NewWithID id h0).ctx key (NewWithID id h0).heap
        = .ok (Value.nil, (NewWithID id h0).heap) ∧
      stopped (NewWithID id h0).ctx h3 = true ∧
      Context.Value (NewWithID id h0).ctx key h3 = .ok (Value.nil, h3) := by
  obtain ⟨h3, hc3, _, hst3, _⟩ := call_good (NewWithID_good id h0)
  exact ⟨fun _ _ => rfl, h3, hc3, NewWithID_open id h0, rfl, hst3, rfl⟩

/-! ## Decimal text of integers -/

theorem digitChar_toNat : ∀ d : Nat, d < 10 → (digitChar d).toNat = 48 + d := by
  decide

theorem digitChar_ne_special :
    ∀ d : Nat, d < 10 → digitChar d ≠ '-' ∧ digitChar d ≠ 'c' ∧ digitChar d ≠ ']' := by
  decide

theorem decimalDigits_foldl :
    ∀ (fuel u : Nat) (acc : List Char), u < fuel →
      List.foldl (fun n ch => 10 * n + (Char.toNat ch - 48)) 0 (decimalDigits fuel u acc)
        = List.foldl (fun n ch => 10 * n + (Char.toNat ch - 48)) u acc := by
  intro fuel
  induction fuel with
  | zero => intro u acc hu; omega
  | succ fuel ih =>
    intro u acc hu
    by_cases h10 : u < 10
    · simp [decimalDigits, h10, digitChar_toNat u h10]
    · have hdiv : u / 10 < fuel := by omega
      have hmod : u % 10 < 10 := Nat.mod_lt u (by decide)
      simp only [decimalDigits, h10, if_false]
      rw [ih (u / 10) _ hdiv]
      simp only [List.foldl_cons, digitChar_toNat (u % 10) hmod]
      congr 1
      omega

theorem formatUint_injective (a b : Nat) (h : formatUint a = formatUint b) : a = b := by
  have ha := decimalDigits_foldl (a + 1) a [] (Nat.lt_succ_self a)
  have hb := decimalDigits_foldl (b + 1) b [] (Nat.lt_succ_self b)
  have hd : decimalDigits (a + 1) a [] = decimalDigits (b + 1) b [] :=
    congrArg String.data h
  rw [hd, hb] at ha
  simpa using ha.symm

theorem decimalDigits_mem :
    ∀ (fuel u : Nat) (acc : List Char) (ch : Char), ch ∈ decimalDigits fuel u acc →
      (∃ d, d < 10 ∧ ch = digitChar d) ∨ ch ∈ acc := by
  intro fuel
  induction fuel with
  | zero => intro u acc ch hch; exact Or.inr hch
  | succ fuel ih =>
    intro u acc ch hch
    by_cases h10 : u < 10
    · simp only [decimalDigits, h10, if_true, List.mem_cons] at hch
      rcases hch with h1 | h1
      · exact Or.inl ⟨u, h10, h1⟩
      · exact Or.inr h1
    · simp only [decimalDigits, h10, if_false] at hch
      rcases ih _ _ _ hch with h1 | h1
      · exact Or.inl h1
      · rcases List.mem_cons.mp h1 with h2 | h2
        · exact Or.inl ⟨u % 10, Nat.mod_lt u (by decide), h2⟩
        · exact Or.inr h2

theorem formatUint_chars (u : Nat) (ch : Char) (hch : ch ∈ (formatUint u).data) :
    ∃ d, d < 10 ∧ ch = digitChar d := by
  rcases decimalDigits_mem (u + 1) u [] ch hch with h1 | h1
  · exact h1
  · cases h1

theorem formatInt_chars (i : Int) (ch : Char) (hch : ch ∈ (formatInt i).data) :
    ch ≠ 'c' ∧ ch ≠ ']' := by
  unfold formatInt at hch
  split at hch
  · rw [String.data_append, List.mem_append] at hch
    rcases hch with h1 | h1
    · have : ch = '-' := by simpa using h1
      subst this
      decide
    · obtain ⟨d, hd, rfl⟩ := formatUint_chars _ _ h1
      exact (digitChar_ne_special d hd).2
  · obtain ⟨d, hd, rfl⟩ := formatUint_chars _ _ hch
    exact (digitChar_ne_special d hd).2

theorem formatInt_injective (a b : Int) (h : formatInt a = formatInt b) : a = b := by
  have hminus : ∀ (u v : Nat), "-" ++ formatUint u ≠ formatUint v := by
    intro u v heq
    have hmem : '-' ∈ (formatUint v).data := by
      rw [← heq, String.data_append]
      simp
    obtain ⟨d, hd, hch⟩ := formatUint_chars v '-' hmem
    exact (digitChar_ne_special d hd).1 hch.symm
  unfold formatInt at h
  by_cases ha : a < 0 <;> by_cases hb : b < 0
  · simp only [ha, hb, if_true] at h
    have hdata := congrArg String.data h
    simp only [String.data_append, List.append_cancel_left_eq] at hdata
    have := formatUint_injective _ _ (String.ext hdata)
    omega
  · simp only [ha, hb, if_true, if_false] at h
    exact absurd h (hminus _ _)
  · simp only [ha, hb, if_true, if_false] at h
    exact absurd h.symm (hminus _ _)
  · simp only [ha, hb, if_false] at h
    have := formatUint_injective _ _ h
    omega

/-! ## Stop texts of integer identifiers -/

theorem infix_eq_of_unique_ends {α : Type} (c r : α) (m B Y X : List α)
    (hmc : c ∈ m) (hmr : r ∈ m) (hY : c ∉ Y) (hX : r ∉ X)
    (hB1 : B = c :: Y) (hB2 : B = X ++ [r]) (hin : m <:+: B) : m = B := by
  obtain ⟨s, t, hst⟩ := hin
  have hs : s = [] := by
    cases s with
    | nil => rfl
    | cons x s1 =>
      exfalso
      rw [hB1] at hst
      simp only [List.cons_append, List.cons.injEq] at hst
      apply hY
      rw [← hst.2]
      simp [hmc]
  have ht : t = [] := by
    rcases List.eq_nil_or_concat t with h1 | ⟨L, b, h1⟩
    · exact h1
    · exfalso
      rw [hB2, h1, List.concat_eq_append, ← List.append_assoc] at hst
      have hpre := (List.append_inj' hst rfl).1
      apply hX
      rw [← hpre]
      simp [hmr]
  rw [hs, ht] at hst
  simpa using hst

theorem stopText_infix_int (a b : Int)
    (hin : ("context stopped" ++ " [id = " ++ formatInt a ++ "]").data
      <:+: ("context stopped" ++ " [id = " ++ formatInt b ++ "]").data) : a = b := by
  have hc : ∀ i : Int, 'c' ∉ (formatInt i).data := fun i hm => (formatInt_chars i _ hm).1 rfl
  have hr : ∀ i : Int, ']' ∉ (formatInt i).data := fun i hm => (formatInt_chars i _ hm).2 rfl
  have hform : ∀ i : Int, ("context stopped" ++ " [id = " ++ formatInt i ++ "]").data
      = "context stopped [id = ".data ++ (formatInt i).data ++ [']'] := by
    intro i
    simp only [String.data_append]
    rfl
  rw [hform a, hform b] at hin
  have hB1 : "context stopped [id = ".data ++ (formatInt b).data ++ [']']
      = 'c' :: ("ontext stopped [id = ".data ++ (formatInt b).data ++ [']']) := rfl
  have hY : 'c' ∉ "ontext stopped [id = ".data ++ (formatInt b).data ++ [']'] := by
    intro hm
    rcases List.mem_append.mp hm with h1 | h1
    · rcases List.mem_append.mp h1 with h2 | h2
      · revert h2; decide
      · exact hc b h2
    · revert h1; decide
  have hX : ']' ∉ "context stopped [id = ".data ++ (formatInt b).data := by
    intro hm
    rcases List.mem_append.mp hm with h1 | h1
    · revert h1; decide
    · exact hr b h1
  have hmc : 'c' ∈ "context stopped [id = ".data ++ (formatInt a).data ++ [']'] :=
    List.mem_append_left _ (List.mem_append_left _ (by decide))
  have hmr : ']' ∈ "context stopped [id = ".data ++ (formatInt a).data ++ [']'] :=
    List.mem_append_right _ (by simp)
  have heq := infix_eq_of_unique_ends 'c' ']' _ _ _ _ hmc hmr hY hX hB1 rfl hin
  have hdata : (formatInt a).data = (formatInt b).data := by
    simpa using heq
  exact formatInt_injective a b (String.ext hdata)

theorem IsMyErr_lookup {c : Addr} {h : Heap} {k : Context} {t : ErrObj}
    (hk : h.ctxs[c]? = some k) (ht : k.stopErr = some t) (e : ErrObj) :
    Context.IsMyErr c (some e) h
      = .ok (errorsIsLoop e t || stringsContains e.msg t.msg, h) := by
  by_cases hl : errorsIsLoop e t = true
  · simp [Context.IsMyErr, hk, ht, errorsIs, hl]
  · simp [Context.IsMyErr, hk, ht, errorsIs, hl, errError]

theorem NewWithID_lookup_new (id : Value) (h : Heap) :
    (NewWithID id h).heap.ctxs[(NewWithID id h).ctx]?
      = some ⟨h.chans.length, fmtErrorf h.nextErr ErrStopped id⟩ := by
  simp [NewWithID]

theorem NewWithID_lookup_old (id : Value) (h : Heap) (c : Addr) (k : Context)
    (hk : h.ctxs[c]? = some k) : (NewWithID id h).heap.ctxs[c]? = some k := by
  have hlt : c < h.ctxs.length := by
    by_contra hcon
    rw [List.getElem?_eq_none (Nat.le_of_not_lt hcon)] at hk
    cases hk
  simp [NewWithID, List.getElem?_append_left hlt, hk]

/-- Two contexts with distinct integer identifiers in one heap: if A, made by
`NewWithID(a)` in `h0`, is still in the heap `h` and the next free error address of `h`
is past that of `h0`, then for B made by `NewWithID(b)` in `h` with `a ≠ b` neither stop
text is a substring of the other, neither stop error is in the wrap chain of the other,
and both `IsMyErr` calls on the stop error of the other return false. -/
theorem isMyErr_distinct_ints_later_heap (a b : Int) (h0 h : Heap) (hab : a ≠ b)
    (hA : h.ctxs[(NewWithID (.int a) h0).ctx]?
      = (NewWithID (.int a) h0).heap.ctxs[(NewWithID (.int a) h0).ctx]?)
    (hnext : h0.nextErr < h.nextErr) :
    New a h0 = NewWithID (.int a) h0 ∧ New b h = NewWithID (.int b) h ∧
    ∃ eA eB,
      stopErrOf (NewWithID (.int a) h0).ctx (NewWithID (.int b) h).heap = some eA ∧
      stopErrOf (NewWithID (.int b) h).ctx (NewWithID (.int b) h).heap = some eB ∧
      eA.msg = "context stopped [id = " ++ formatInt a ++ "]" ∧
      eB.msg = "context stopped [id = " ++ formatInt b ++ "]" ∧
      ¬ eA.msg.data <:+: eB.msg.data ∧
      ¬ eB.msg.data <:+: eA.msg.data ∧
      (∀ x ∈ chain eB, x.ptrEq eA = false) ∧
      (∀ x ∈ chain eA, x.ptrEq eB = false) ∧
      errorsIs (some eB) (some eA) = false ∧
      errorsIs (some eA) (some eB) = false ∧
      Context.IsMyErr (NewWithID (.int a) h0).ctx (some eB) (NewWithID (.int b) h).heap
        = .ok (false, (NewWithID (.int b) h).heap) ∧
      Context.IsMyErr (NewWithID (.int b) h).ctx (some eA) (NewWithID (.int b) h).heap
        = .ok (false, (NewWithID (.int b) h).heap) := by
  have hkA : h.ctxs[(NewWithID (.int a) h0).ctx]?
      = some ⟨h0.chans.length, fmtErrorf h0.nextErr ErrStopped (.int a)⟩ := by
    rw [hA, NewWithID_lookup_new]
  have hctxA := NewWithID_lookup_old (.int b) h _ _ hkA
  have hctxB := NewWithID_lookup_new (.int b) h
  have hne1 : h.nextErr ≠ h0.nextErr := Nat.ne_of_gt hnext
  have hne2 : h0.nextErr ≠ h.nextErr := Nat.ne_of_lt hnext
  have hAB : ¬ ("context stopped" ++ " [id = " ++ formatInt a ++ "]").data
      <:+: ("context stopped" ++ " [id = " ++ formatInt b ++ "]").data :=
    fun hin => hab (stopText_infix_int a b hin)
  have hBA : ¬ ("context stopped" ++ " [id = " ++ formatInt b ++ "]").data
      <:+: ("context stopped" ++ " [id = " ++ formatInt a ++ "]").data :=
    fun hin => hab (stopText_infix_int b a hin).symm
  have hloopBA : errorsIsLoop
      (.wrapError h.nextErr ("context stopped" ++ " [id = " ++ formatInt b ++ "]")
        (.errorString 0 "context stopped"))
      (.wrapError h0.nextErr ("context stopped" ++ " [id = " ++ formatInt a ++ "]")
        (.errorString 0 "context stopped")) = false := by
    simp [errorsIsLoop, ErrObj.ptrEq, hne1]
  have hloopAB : errorsIsLoop
      (.wrapError h0.nextErr ("context stopped" ++ " [id = " ++ formatInt a ++ "]")
        (.errorString 0 "context stopped"))
      (.wrapError h.nextErr ("context stopped" ++ " [id = " ++ formatInt b ++ "]")
        (.errorString 0 "context stopped")) = false := by
    simp [errorsIsLoop, ErrObj.ptrEq, hne2]
  refine ⟨rfl, rfl,
    .wrapError h0.nextErr ("context stopped" ++ " [id = " ++ formatInt a ++ "]")
      (.errorString 0 "context stopped"),
    .wrapError h.nextErr ("context stopped" ++ " [id = " ++ formatInt b ++ "]")
      (.errorString 0 "context stopped"), ?_, ?_, rfl, rfl, hAB, hBA, ?_, ?_,
    hloopBA, hloopAB, ?_, ?_⟩
  · simp only [stopErrOf, hctxA]
    rfl
  · simp only [stopErrOf, hctxB]
    rfl
  · intro x hx
    simp only [chain, List.mem_cons, List.mem_singleton, List.not_mem_nil, or_false] at hx
    rcases hx with rfl | rfl
    · simp [ErrObj.ptrEq, hne1]
    · rfl
  · intro x hx
    simp only [chain, List.mem_cons, List.mem_singleton, List.not_mem_nil, or_false] at hx
    rcases hx with rfl | rfl
    · simp [ErrObj.ptrEq, hne2]
    · rfl
  · have hres : Context.IsMyErr (NewWithID (.int a) h0).ctx
        (some (ErrObj.wrapError h.nextErr ("context stopped" ++ " [id = " ++ formatInt b ++ "]")
          (.errorString 0 "context stopped")))
        (NewWithID (.int b) h).heap
        = .ok (errorsIsLoop
            (ErrObj.wrapError h.nextErr ("context stopped" ++ " [id = " ++ formatInt b ++ "]")
          (.errorString 0 "context stopped"))
            (ErrObj.wrapError h0.nextErr ("context stopped" ++ " [id = " ++ formatInt a ++ "]")
          (.errorString 0 "context stopped"))
          || stringsContains
            (ErrObj.wrapError h.nextErr ("context stopped" ++ " [id = " ++ formatInt b ++ "]")
          (.errorString 0 "context stopped")).msg
            (ErrObj.wrapError h0.nextErr ("context stopped" ++ " [id = " ++ formatInt a ++ "]")
          (.errorString 0 "context stopped")).msg,
          (NewWithID (.int b) h).heap) :=
      IsMyErr_lookup hctxA rfl _
    rw [hres, hloopBA]
    have hc : stringsContains
        (ErrObj.wrapError h.nextErr ("context stopped" ++ " [id = " ++ formatInt b ++ "]")
          (.errorString 0 "context stopped")).msg
        (ErrObj.wrapError h0.nextErr ("context stopped" ++ " [id = " ++ formatInt a ++ "]")
          (.errorString 0 "context stopped")).msg = false := by
      rw [← Bool.not_eq_true, stringsContains_iff]
      exact hAB
    rw [hc]
    rfl
  · have hres : Context.IsMyErr (NewWithID (.int b) h).ctx
        (some (ErrObj.wrapError h0.nextErr ("context stopped" ++ " [id = " ++ formatInt a ++ "]")
          (.errorString 0 "context stopped")))
        (NewWithID (.int b) h).heap
        = .ok (errorsIsLoop
            (ErrObj.wrapError h0.nextErr ("context stopped" ++ " [id = " ++ formatInt a ++ "]")
          (.errorString 0 "context stopped"))
            (ErrObj.wrapError h.nextErr ("context stopped" ++ " [id = " ++ formatInt b ++ "]")
          (.errorString 0 "context stopped"))
          || stringsContains
            (ErrObj.wrapError h0.nextErr ("context stopped" ++ " [id = " ++ formatInt a ++ "]")
          (.errorString 0 "context stopped")).msg
            (ErrObj.wrapError h.nextErr ("context stopped" ++ " [id = " ++ formatInt b ++ "]")
          (.errorString 0 "context stopped")).msg,
          (NewWithID (.int b) h).heap) :=
      IsMyErr_lookup hctxB rfl _
    rw [hres, hloopAB]
    have hc : stringsContains
        (ErrObj.wrapError h0.nextErr ("context stopped" ++ " [id = " ++ formatInt a ++ "]")
          (.errorString 0 "context stopped")).msg
        (ErrObj.wrapError h.nextErr ("context stopped" ++ " [id = " ++ formatInt b ++ "]")
          (.errorString 0 "context stopped")).msg = false := by
      rw [← Bool.not_eq_true, stringsContains_iff]
      exact hBA
    rw [hc]
    rfl

/-! ## Two contexts in one heap -/

theorem NewWithID_keeps_good {k : Context} {c : Addr} {f : StopFn} {h : Heap}
    (hg : Good k c f h) (id : Value) : Good k c f (NewWithID id h).heap := by
  obtain ⟨hk, hf, hne, b, hb, hd⟩ := hg
  have hlt : k.stopCh < h.chans.length := by
    by_contra hcon
    rw [List.getElem?_eq_none (Nat.le_of_not_lt hcon)] at hb
    cases hb
  have hlo : f.once < h.onces.length := by
    by_contra hcon
    rw [List.getElem?_eq_none (Nat.le_of_not_lt hcon)] at hd
    cases hd
  refine ⟨NewWithID_lookup_old id h c k hk, hf, hne, b, ?_, ?_⟩
  · simp [NewWithID, List.getElem?_append_left hlt, hb]
  · simp [NewWithID, List.getElem?_append_left hlo, hd]

theorem NewWithID_apart {k : Context} {c : Addr} {f : StopFn} {h : Heap}
    (hg : Good k c f h) :
    k.stopCh ≠ h.chans.length ∧ f.once ≠ h.onces.length := by
  obtain ⟨_, _, _, b, hb, hd⟩ := hg
  constructor
  · intro heq
    rw [heq, List.getElem?_eq_none (Nat.le_refl _)] at hb
    cases hb
  · intro heq
    rw [heq, List.getElem?_eq_none (Nat.le_refl _)] at hd
    cases hd

theorem call_frame {kA kB : Context} {cA cB : Addr} {fA fB : StopFn} {h : Heap}
    (hgA : Good kA cA fA h) (hgB : Good kB cB fB h)
    (hch : kA.stopCh ≠ kB.stopCh) (hon : fA.once ≠ fB.once) :
    ∃ h2, fA.call h = .ok h2 ∧ Good kA cA fA h2 ∧ Good kB cB fB h2 ∧
      stopped cA h2 = true ∧ (stopped cA h = true → h2 = h) ∧
      stopped cB h2 = stopped cB h := by
  obtain ⟨h2, hc, hgA2, hst, hfix⟩ := call_good hgA
  obtain ⟨hkA, hfA, _, bA, hbA, hdA⟩ := hgA
  obtain ⟨hkB, hfB, hneB, bB, hbB, hdB⟩ := hgB
  cases bA with
  | true =>
    have hstA : stopped cA h = true := by simp [stopped, hkA, hbA]
    have h2eq := hfix hstA
    subst h2eq
    exact ⟨h2, hc, hgA2, ⟨hkB, hfB, hneB, bB, hbB, hdB⟩, hst, hfix, rfl⟩
  | false =>
    have hexp : fA.call h
        = .ok { h with chans := h.chans.set kA.stopCh true,
                       onces := h.onces.set fA.once true } := by
      simp [StopFn.call, onceDo, hdA, hfA, hkA, closeChan, hbA]
    have h2eq : h2 = { h with chans := h.chans.set kA.stopCh true,
                              onces := h.onces.set fA.once true } := by
      rw [hexp] at hc
      exact (Except.ok.inj hc).symm
    subst h2eq
    refine ⟨_, hc, hgA2, ⟨hkB, hfB, hneB, bB, ?_, ?_⟩, hst, hfix, ?_⟩
    · simp [List.getElem?_set_ne hch, hbB]
    · simp [List.getElem?_set_ne hon, hdB]
    · simp [stopped, hkB, List.getElem?_set_ne hch]

theorem step_frame {kA kB : Context} {cA cB : Addr} {fA fB : StopFn} {h : Heap}
    (hgA : Good kA cA fA h) (hgB : Good kB cB fB h)
    (hch : kA.stopCh ≠ kB.stopCh) (hon : fA.once ≠ fB.once)
    (op : Op) (hop : op.nonNil = true) :
    ∃ h2, step cA fA op h = .ok h2 ∧ Good kA cA fA h2 ∧ Good kB cB fB h2 ∧
      stopped cA h2 = (stopped cA h || decide (op = Op.stop)) ∧
      stopped cB h2 = stopped cB h := by
  by_cases hs : op = Op.stop
  · subst hs
    obtain ⟨h2, hc, hgA2, hgB2, hst, _, hstB⟩ := call_frame hgA hgB hch hon
    exact ⟨h2, hc, hgA2, hgB2, by simp [hst], hstB⟩
  · obtain ⟨h2, hc, hgA2, hst, hfr⟩ := step_good hgA op hop
    have h2eq := hfr hs
    subst h2eq
    exact ⟨h2, hc, hgA2, hgB, hst, rfl⟩

theorem run_frame {kA kB : Context} {cA cB : Addr} {fA fB : StopFn}
    (hch : kA.stopCh ≠ kB.stopCh) (hon : fA.once ≠ fB.once) :
    ∀ (ops : List Op) (h : Heap), Good kA cA fA h → Good kB cB fB h →
      (∀ o ∈ ops, o.nonNil = true) →
      ∃ h2, run cA fA ops h = .ok h2 ∧ Good kA cA fA h2 ∧ Good kB cB fB h2 ∧
        stopped cA h2 = (stopped cA h || decide (Op.stop ∈ ops)) ∧
        stopped cB h2 = stopped cB h := by
  intro ops
  induction ops with
  | nil =>
    intro h hgA hgB _
    exact ⟨h, rfl, hgA, hgB, by simp, rfl⟩
  | cons op ops ih =>
    intro h hgA hgB hsafe
    obtain ⟨h1, hs1, hgA1, hgB1, hst1, hstB1⟩ :=
      step_frame hgA hgB hch hon op (hsafe op (List.mem_cons_self op ops))
    obtain ⟨h2, hr2, hgA2, hgB2, hst2, hstB2⟩ :=
      ih h1 hgA1 hgB1 (fun o ho => hsafe o (List.mem_cons_of_mem op ho))
    refine ⟨h2, by simp [run, hs1, hr2], hgA2, hgB2, ?_, by rw [hstB2, hstB1]⟩
    rw [hst2, hst1]
    by_cases hop : op = Op.stop
    · simp [hop]
    · have hne : ¬ Op.stop = op := fun hh => hop hh.symm
      simp [hop, hne]

theorem callN_frame {kA kB : Context} {cA cB : Addr} {fA fB : StopFn} {h : Heap}
    (hgA : Good kA cA fA h) (hgB : Good kB cB fB h)
    (hch : kA.stopCh ≠ kB.stopCh) (hon : fA.once ≠ fB.once) (n : Nat) (hn : 1 ≤ n) :
    ∃ h2, callN fA n h = .ok h2 ∧ Good kA cA fA h2 ∧ Good kB cB fB h2 ∧
      stopped cA h2 = true ∧ stopped cB h2 = stopped cB h := by
  obtain ⟨h2, hc, hgA2, hgB2, hst, _, hstB⟩ := call_frame hgA hgB hch hon
  obtain ⟨h3, hc3, _, _, hfix⟩ := call_good hgA2
  have hc22 : fA.call h2 = .ok h2 := by rw [hc3, hfix hst]
  obtain ⟨m, rfl⟩ : ∃ m, n = m + 1 := ⟨n - 1, by omega⟩
  exact ⟨h2, by simp [callN, hc, callN_fixed hc22 m], hgA2, hgB2, hst, hstB⟩

theorem NewWithID_keeps_stopped {k : Context} {c : Addr} {f : StopFn} {h : Heap}
    (hg : Good k c f h) (id : Value) :
    stopped c (NewWithID id h).heap = stopped c h := by
  obtain ⟨hk, _, _, b, hb, _⟩ := hg
  have hlt : k.stopCh < h.chans.length := by
    by_contra hcon
    rw [List.getElem?_eq_none (Nat.le_of_not_lt hcon)] at hb
    cases hb
  have hnew : (NewWithID id h).heap.chans[k.stopCh]? = some b := by
    simp [NewWithID, List.getElem?_append_left hlt, hb]
  simp only [stopped, NewWithID_lookup_old id h c k hk, hk, hnew, hb]

/-- C16: a stop function is bound to its own context.  Let A be made by `NewWithID(idA)`
and B by a separate `NewWithID(idB)` call after it, and let any operations on A and then
on B bring the two contexts into any reachable states.  Then `n ≥ 1` calls of the stop
function of A return without a panic and leave B as it was: B is stopped exactly if it
was, its stop error is the one stored at construction, and `Err()` on B returns what it
returned before (nil if B was open), while `Err()` on A now returns the stop error of A.
The same holds with A and B exchanged. -/
theorem C16_stop_bound_to_own_context (idA idB : Value) (h0 : Heap) (opsA opsB : List Op)
    (n : Nat) (hsafe : ∀ o ∈ opsA ++ opsB, o.nonNil = true) (hn : 1 ≤ n) :
    ∃ h1 h2 h3 h4,
      run (NewWithID idA h0).ctx (NewWithID idA h0).stopFn opsA
        (NewWithID idB (NewWithID idA h0).heap).heap = .ok h1 ∧
      run (NewWithID idB (NewWithID idA h0).heap).ctx
        (NewWithID idB (NewWithID idA h0).heap).stopFn opsB h1 = .ok h2 ∧
      stopped (NewWithID idA h0).ctx h2 = decide (Op.stop ∈ opsA) ∧
      stopped (NewWithID idB (NewWithID idA h0).heap).ctx h2 = decide (Op.stop ∈ opsB) ∧
      Context.Err (NewWithID idA h0).ctx h2
        = .ok (if Op.stop ∈ opsA then stopErrOf (NewWithID idA h0).ctx (NewWithID idA h0).heap
            else none, h2) ∧
      Context.Err (NewWithID idB (NewWithID idA h0).heap).ctx h2
        = .ok (if Op.stop ∈ opsB then stopErrOf (NewWithID idB (NewWithID idA h0).heap).ctx
              (NewWithID idB (NewWithID idA h0).heap).heap
            else none, h2) ∧
      stopErrOf (NewWithID idA h0).ctx (NewWithID idA h0).heap ≠ none ∧
      stopErrOf (NewWithID idB (NewWithID idA h0).heap).ctx
        (NewWithID idB (NewWithID idA h0).heap).heap ≠ none ∧
      callN (NewWithID idA h0).stopFn n h2 = .ok h3 ∧
      stopped (NewWithID idB (NewWithID idA h0).heap).ctx h3
        = stopped (NewWithID idB (NewWithID idA h0).heap).ctx h2 ∧
      stopErrOf (NewWithID idB (NewWithID idA h0).heap).ctx h3
        = stopErrOf (NewWithID idB (NewWithID idA h0).heap).ctx
            (NewWithID idB (NewWithID idA h0).heap).heap ∧
      Context.Err (NewWithID idB (NewWithID idA h0).heap).ctx h3
        = .ok (if Op.stop ∈ opsB then stopErrOf (NewWithID idB (NewWithID idA h0).heap).ctx
              (NewWithID idB (NewWithID idA h0).heap).heap
            else none, h3) ∧
      Context.Err (NewWithID idA h0).ctx h3
        = .ok (stopErrOf (NewWithID idA h0).ctx (NewWithID idA h0).heap, h3) ∧
      callN (NewWithID idB (NewWithID idA h0).heap).stopFn n h2 = .ok h4 ∧
      stopped (NewWithID idA h0).ctx h4 = stopped (NewWithID idA h0).ctx h2 ∧
      stopErrOf (NewWithID idA h0).ctx h4 = stopErrOf (NewWithID idA h0).ctx (NewWithID idA h0).heap ∧
      Context.Err (NewWithID idA h0).ctx h4
        = .ok (if Op.stop ∈ opsA then stopErrOf (NewWithID idA h0).ctx (NewWithID idA h0).heap
            else none, h4) ∧
      Context.Err (NewWithID idB (NewWithID idA h0).heap).ctx h4
        = .ok (stopErrOf (NewWithID idB (NewWithID idA h0).heap).ctx
            (NewWithID idB (NewWithID idA h0).heap).heap, h4) := by
  have hgA0 := NewWithID_good idA h0
  have hgA := NewWithID_keeps_good hgA0 idB
  have hgB := NewWithID_good idB (NewWithID idA h0).heap
  have hap := NewWithID_apart hgA0
  have hch : (Context.mk h0.chans.length (fmtErrorf h0.nextErr ErrStopped idA)).stopCh
      ≠ (Context.mk (NewWithID idA h0).heap.chans.length
          (fmtErrorf (NewWithID idA h0).heap.nextErr ErrStopped idB)).stopCh := hap.1
  have hon : (NewWithID idA h0).stopFn.once
      ≠ (NewWithID idB (NewWithID idA h0).heap).stopFn.once := hap.2
  have hopenA : stopped (NewWithID idA h0).ctx (NewWithID idB (NewWithID idA h0).heap).heap
      = false := by
    rw [NewWithID_keeps_stopped hgA0 idB, NewWithID_open]
  have hopenB := NewWithID_open idB (NewWithID idA h0).heap
  obtain ⟨h1, hr1, hgA1, hgB1, hstA1, hstB1⟩ :=
    run_frame hch hon opsA _ hgA hgB (fun o ho => hsafe o (List.mem_append_left opsB ho))
  obtain ⟨h2, hr2, hgB2, hgA2, hstB2, hstA2⟩ :=
    run_frame hch.symm hon.symm opsB _ hgB1 hgA1
      (fun o ho => hsafe o (List.mem_append_right opsA ho))
  obtain ⟨h3, hc3, hgA3, hgB3, hstA3, hstB3⟩ := callN_frame hgA2 hgB2 hch hon n hn
  obtain ⟨h4, hc4, hgB4, hgA4, hstB4, hstA4⟩ :=
    callN_frame hgB2 hgA2 hch.symm hon.symm n hn
  have hsA : stopped (NewWithID idA h0).ctx h2 = decide (Op.stop ∈ opsA) := by
    rw [hstA2, hstA1, hopenA]
    simp
  have hsB : stopped (NewWithID idB (NewWithID idA h0).heap).ctx h2
      = decide (Op.stop ∈ opsB) := by
    rw [hstB2, hstB1, hopenB]
    simp
  have heA : stopErrOf (NewWithID idA h0).ctx (NewWithID idA h0).heap
      = fmtErrorf h0.nextErr ErrStopped idA := stopErrOf_good hgA0
  have heB : stopErrOf (NewWithID idB (NewWithID idA h0).heap).ctx
      (NewWithID idB (NewWithID idA h0).heap).heap
      = fmtErrorf (NewWithID idA h0).heap.nextErr ErrStopped idB := stopErrOf_good hgB
  refine ⟨h1, h2, h3, h4, hr1, hr2, hsA, hsB, ?_, ?_, ?_, ?_, hc3, hstB3, ?_, ?_, ?_,
    hc4, hstA4, ?_, ?_, ?_⟩
  · rw [Err_good hgA2, hsA, heA]
    simp
  · rw [Err_good hgB2, hsB, heB]
    simp
  · rw [heA]
    exact hgA0.2.2.1
  · rw [heB]
    exact hgB.2.2.1
  · rw [stopErrOf_good hgB3, heB]
  · rw [Err_good hgB3, hstB3, hsB, heB]
    simp
  · rw [Err_good hgA3, hstA3, heA]
    rfl
  · rw [stopErrOf_good hgA4, heA]
  · rw [Err_good hgA4, hstA4, hsA, heA]
    simp
  · rw [Err_good hgB4, hstB4, heB]
    rfl

theorem C16_witness :
    (∀ o ∈ [Op.Err, Op.Done] ++ [Op.Deadline, Op.Err], o.nonNil = true) ∧ 1 ≤ 3 ∧
    ∃ h1 h2 h3 h4,
      run (NewWithID (.int 1) Heap.init).ctx (NewWithID (.int 1) Heap.init).stopFn [Op.Err, Op.Done]
        (NewWithID (.int 2) (NewWithID (.int 1) Heap.init).heap).heap = .ok h1 ∧
      run (NewWithID (.int 2) (NewWithID (.int 1) Heap.init).heap).ctx
        (NewWithID (.int 2) (NewWithID (.int 1) Heap.init).heap).stopFn [Op.Deadline, Op.Err] h1 = .ok h2 ∧
      stopped (NewWithID (.int 1) Heap.init).ctx h2 = decide (Op.stop ∈ [Op.Err, Op.Done]) ∧
      stopped (NewWithID (.int 2) (NewWithID (.int 1) Heap.init).heap).ctx h2 = decide (Op.stop ∈ [Op.Deadline, Op.Err]) ∧
      Context.Err (NewWithID (.int 1) Heap.init).ctx h2
        = .ok (if Op.stop ∈ [Op.Err, Op.Done] then stopErrOf (NewWithID (.int 1) Heap.init).ctx (NewWithID (.int 1) Heap.init).heap
            else none, h2) ∧
      Context.Err (NewWithID (.int 2) (NewWithID (.int 1) Heap.init).heap).ctx h2
        = .ok (if Op.stop ∈ [Op.Deadline, Op.Err] then stopErrOf (NewWithID (.int 2) (NewWithID (.int 1) Heap.init).heap).ctx
              (NewWithID (.int 2) (NewWithID (.int 1) Heap.init).heap).heap
            else none, h2) ∧
      stopErrOf (NewWithID (.int 1) Heap.init).ctx (NewWithID (.int 1) Heap.init).heap ≠ none ∧
      stopErrOf (NewWithID (.int 2) (NewWithID (.int 1) Heap.init).heap).ctx
        (NewWithID (.int 2) (NewWithID (.int 1) Heap.init).heap).heap ≠ none ∧
      callN (NewWithID (.int 1) Heap.init).stopFn 3 h2 = .ok h3 ∧
      stopped (NewWithID (.int 2) (NewWithID (.int 1) Heap.init).heap).ctx h3
        = stopped (NewWithID (.int 2) (NewWithID (.int 1) Heap.init).heap).ctx h2 ∧
      stopErrOf (NewWithID (.int 2) (NewWithID (.int 1) Heap.init).heap).ctx h3
        = stopErrOf (NewWithID (.int 2) (NewWithID (.int 1) Heap.init).heap).ctx
            (NewWithID (.int 2) (NewWithID (.int 1) Heap.init).heap).heap ∧
      Context.Err (NewWithID (.int 2) (NewWithID (.int 1) Heap.init).heap).ctx h3
        = .ok (if Op.stop ∈ [Op.Deadline, Op.Err] then stopErrOf (NewWithID (.int 2) (NewWithID (.int 1) Heap.init).heap).ctx
              (NewWithID (.int 2) (NewWithID (.int 1) Heap.init).heap).heap
            else none, h3) ∧
      Context.Err (NewWithID (.int 1) Heap.init).ctx h3
        = .ok (stopErrOf (NewWithID (.int 1) Heap.init).ctx (NewWithID (.int 1) Heap.init).heap, h3) ∧
      callN (NewWithID (.int 2) (NewWithID (.int 1) Heap.init).heap).stopFn 3 h2 = .ok h4 ∧
      stopped (NewWithID (.int 1) Heap.init).ctx h4 = stopped (NewWithID (.int 1) Heap.init).ctx h2 ∧
      stopErrOf (NewWithID (.int 1) Heap.init).ctx h4 = stopErrOf (NewWithID (.int 1) Heap.init).ctx (NewWithID (.int 1) Heap.init).heap ∧
      Context.Err (NewWithID (.int 1) Heap.init).ctx h4
        = .ok (if Op.stop ∈ [Op.Err, Op.Done] then stopErrOf (NewWithID (.int 1) Heap.init).ctx (NewWithID (.int 1) Heap.init).heap
            else none, h4) ∧
      Context.Err (NewWithID (.int 2) (NewWithID (.int 1) Heap.init).heap).ctx h4
        = .ok (stopErrOf (NewWithID (.int 2) (NewWithID (.int 1) Heap.init).heap).ctx
            (NewWithID (.int 2) (NewWithID (.int 1) Heap.init).heap).heap, h4) :=
  ⟨by decide, by decide,
    C16_stop_bound_to_own_context (.int 1) (.int 2) Heap.init [Op.Err, Op.Done]
      [Op.Deadline, Op.Err] 3 (by decide) (by decide)⟩

/-! ## The allocator: what calls of the package do to error addresses and contexts -/

theorem NewWithID_nextErr (id : Value) (h : Heap) :
    (NewWithID id h).heap.nextErr = h.nextErr + 1 := by
  simp [NewWithID]

theorem call_keeps_alloc (f : StopFn) (h h2 : Heap) (hc : f.call h = .ok h2) :
    h2.nextErr = h.nextErr ∧ h2.ctxs = h.ctxs := by
  unfold StopFn.call onceDo at hc
  cases hO : h.onces[f.once]? with
  | none => simp [hO] at hc
  | some d =>
    cases d with
    | true =>
      simp only [hO, Except.ok.injEq] at hc
      subst hc
      exact ⟨rfl, rfl⟩
    | false =>
      simp only [hO] at hc
      cases hK : h.ctxs[f.ctx]? with
      | none => simp [hK] at hc
      | some k =>
        simp only [hK, closeChan] at hc
        cases hC : h.chans[k.stopCh]? with
        | none => simp [hC] at hc
        | some b =>
          cases b with
          | true => simp [hC] at hc
          | false =>
            simp only [hC, Except.ok.injEq] at hc
            subst hc
            exact ⟨rfl, rfl⟩

theorem step_keeps_alloc (c : Addr) (f : StopFn) (op : Op) (h h2 : Heap)
    (hs : step c f op h = .ok h2) : h2.nextErr = h.nextErr ∧ h2.ctxs = h.ctxs := by
  cases op with
  | stop => exact call_keeps_alloc f h h2 hs
  | Deadline =>
    simp only [step, Context.Deadline, Except.map, Except.ok.injEq] at hs
    subst hs
    exact ⟨rfl, rfl⟩
  | Done =>
    simp only [step, Context.Done] at hs
    cases hK : h.ctxs[c]? with
    | none => simp [hK, Except.map] at hs
    | some k =>
      simp only [hK, Except.map, Except.ok.injEq] at hs
      subst hs
      exact ⟨rfl, rfl⟩
  | Err =>
    simp only [step, Context.Err] at hs
    cases hK : h.ctxs[c]? with
    | none => simp [hK, Except.map] at hs
    | some k =>
      simp only [hK] at hs
      split at hs <;>
        (simp only [Except.map, Except.ok.injEq] at hs
         subst hs
         exact ⟨rfl, rfl⟩)
  | Value key =>
    simp only [step, Context.Value, Except.map, Except.ok.injEq] at hs
    subst hs
    exact ⟨rfl, rfl⟩
  | IsMyErr err =>
    simp only [step, Context.IsMyErr] at hs
    cases hK : h.ctxs[c]? with
    | none => simp [hK, Except.map] at hs
    | some k =>
      simp only [hK] at hs
      split at hs
      · simp only [Except.map, Except.ok.injEq] at hs
        subst hs
        exact ⟨rfl, rfl⟩
      · cases hE : errError err with
        | error p => simp [hE, Except.map] at hs
        | ok t =>
          cases hT : errError k.stopErr with
          | error p => simp [hE, hT, Except.map] at hs
          | ok u =>
            simp only [hE, hT, Except.map, Except.ok.injEq] at hs
            subst hs
            exact ⟨rfl, rfl⟩

theorem exec_later (e : Event) (h h2 : Heap) (he : e.exec h = .ok h2) :
    h.nextErr ≤ h2.nextErr ∧
      ∀ (c : Addr) (k : Context), h.ctxs[c]? = some k → h2.ctxs[c]? = some k := by
  cases e with
  | NewWithID id =>
    simp only [Event.exec, Except.ok.injEq] at he
    subst he
    exact ⟨by rw [NewWithID_nextErr]; exact Nat.le_succ _, fun c k hk => NewWithID_lookup_old id h c k hk⟩
  | New now =>
    simp only [Event.exec, New, Except.ok.injEq] at he
    subst he
    exact ⟨by rw [NewWithID_nextErr]; exact Nat.le_succ _,
      fun c k hk => NewWithID_lookup_old (.int now) h c k hk⟩
  | call c f o =>
    obtain ⟨hn, hc⟩ := step_keeps_alloc c f o h h2 he
    exact ⟨Nat.le_of_eq hn.symm, fun c1 k hk => by rw [hc]; exact hk⟩

theorem runEvents_later :
    ∀ (evs : List Event) (h h2 : Heap), runEvents evs h = .ok h2 →
      h.nextErr ≤ h2.nextErr ∧
      ∀ (c : Addr) (k : Context), h.ctxs[c]? = some k → h2.ctxs[c]? = some k := by
  intro evs
  induction evs with
  | nil =>
    intro h h2 hr
    simp only [runEvents, Except.ok.injEq] at hr
    subst hr
    exact ⟨Nat.le_refl _, fun _ _ hk => hk⟩
  | cons e es ih =>
    intro h h2 hr
    simp only [runEvents] at hr
    cases he : e.exec h with
    | error p => simp [he] at hr
    | ok h1 =>
      simp only [he] at hr
      obtain ⟨hn1, hk1⟩ := exec_later e h h1 he
      obtain ⟨hn2, hk2⟩ := ih h1 h2 hr
      exact ⟨Nat.le_trans hn1 hn2, fun c k hk => hk2 c k (hk1 c k hk)⟩

theorem later_heap_of_runEvents (id : Value) (h0 h : Heap) (evs : List Event)
    (hrun : runEvents evs (NewWithID id h0).heap = .ok h) :
    h.ctxs[(NewWithID id h0).ctx]? = (NewWithID id h0).heap.ctxs[(NewWithID id h0).ctx]? ∧
      h0.nextErr < h.nextErr := by
  obtain ⟨hle, hkeep⟩ := runEvents_later evs _ h hrun
  constructor
  · rw [NewWithID_lookup_new, hkeep _ _ (NewWithID_lookup_new id h0)]
  · have hn := NewWithID_nextErr id h0
    exact Nat.lt_of_lt_of_le (by rw [hn]; exact Nat.lt_succ_self _) hle

/-! ## Two separately created contexts -/

/-- C3, amended: let A be made by `NewWithID(idA)` and B by a separate `NewWithID(idB)`
call after it, with any sequence of calls of the package in between (further `NewWithID`
or `New` calls, stop functions, methods) that does not panic.  Their stop errors are
different objects, so structural matching never relates them, and `A.IsMyErr(B's
stopErr)` is true exactly when the text of A's stop error is a substring of the text of
B's, and false otherwise; likewise with A and B exchanged. -/
theorem C3_isMyErr_other_iff_text (idA idB : Value) (h0 h : Heap) (evs : List Event)
    (hrun : runEvents evs (NewWithID idA h0).heap = .ok h) :
    ∃ eA eB,
      stopErrOf (NewWithID idA h0).ctx (NewWithID idB h).heap = some eA ∧
      stopErrOf (NewWithID idB h).ctx (NewWithID idB h).heap = some eB ∧
      errorsIs (some eB) (some eA) = false ∧
      errorsIs (some eA) (some eB) = false ∧
      Context.IsMyErr (NewWithID idA h0).ctx (some eB) (NewWithID idB h).heap
        = .ok (decide (eA.msg.data <:+: eB.msg.data), (NewWithID idB h).heap) ∧
      Context.IsMyErr (NewWithID idB h).ctx (some eA) (NewWithID idB h).heap
        = .ok (decide (eB.msg.data <:+: eA.msg.data), (NewWithID idB h).heap) := by
  obtain ⟨hA, hnext⟩ := later_heap_of_runEvents idA h0 h evs hrun
  exact isMyErr_two_contexts_later_heap idA idB h0 h hA hnext

theorem C3_witness :
    runEvents [Event.call 0 ⟨0, 0⟩ Op.stop, Event.NewWithID (.str "x")]
      (NewWithID (.int 1) Heap.init).heap
      = .ok (Heap.mk [true, false] [true, false]
        (NewWithID (.str "x") (NewWithID (.int 1) Heap.init).heap).heap.ctxs 3) ∧
    ∃ eA eB,
      stopErrOf (NewWithID (.int 1) Heap.init).ctx (NewWithID (.int 2) (Heap.mk [true, false] [true, false]
        (NewWithID (.str "x") (NewWithID (.int 1) Heap.init).heap).heap.ctxs 3)).heap = some eA ∧
      stopErrOf (NewWithID (.int 2) (Heap.mk [true, false] [true, false]
        (NewWithID (.str "x") (NewWithID (.int 1) Heap.init).heap).heap.ctxs 3)).ctx (NewWithID (.int 2) (Heap.mk [true, false] [true, false]
        (NewWithID (.str "x") (NewWithID (.int 1) Heap.init).heap).heap.ctxs 3)).heap = some eB ∧
      errorsIs (some eB) (some eA) = false ∧
      errorsIs (some eA) (some eB) = false ∧
      Context.IsMyErr (NewWithID (.int 1) Heap.init).ctx (some eB) (NewWithID (.int 2) (Heap.mk [true, false] [true, false]
        (NewWithID (.str "x") (NewWithID (.int 1) Heap.init).heap).heap.ctxs 3)).heap
        = .ok (decide (eA.msg.data <:+: eB.msg.data), (NewWithID (.int 2) (Heap.mk [true, false] [true, false]
        (NewWithID (.str "x") (NewWithID (.int 1) Heap.init).heap).heap.ctxs 3)).heap) ∧
      Context.IsMyErr (NewWithID (.int 2) (Heap.mk [true, false] [true, false]
        (NewWithID (.str "x") (NewWithID (.int 1) Heap.init).heap).heap.ctxs 3)).ctx (some eA) (NewWithID (.int 2) (Heap.mk [true, false] [true, false]
        (NewWithID (.str "x") (NewWithID (.int 1) Heap.init).heap).heap.ctxs 3)).heap
        = .ok (decide (eB.msg.data <:+: eA.msg.data), (NewWithID (.int 2) (Heap.mk [true, false] [true, false]
        (NewWithID (.str "x") (NewWithID (.int 1) Heap.init).heap).heap.ctxs 3)).heap) :=
  ⟨by decide,
    C3_isMyErr_other_iff_text (.int 1) (.int 2) Heap.init
      (Heap.mk [true, false] [true, false]
        (NewWithID (.str "x") (NewWithID (.int 1) Heap.init).heap).heap.ctxs 3)
      [Event.call 0 ⟨0, 0⟩ Op.stop, Event.NewWithID (.str "x")] (by decide)⟩

/-- C15: contexts with distinct integer identifiers are distinguishable.  Let A be made
by `NewWithID(a)` and B by a separate `NewWithID(b)` call after it, with integers
`a ≠ b` and any sequence of calls of the package in between that does not panic; `New`
makes such contexts from the clock reading.  Then the texts `context stopped [id = a]`
and `context stopped [id = b]` are not substrings of each other, neither stop error is in
the wrap chain of the other, and both `A.IsMyErr(B's stopErr)` and
`B.IsMyErr(A's stopErr)` return false. -/
theorem C15_distinct_ints_distinguishable (a b : Int) (h0 h : Heap) (evs : List Event)
    (hab : a ≠ b) (hrun : runEvents evs (NewWithID (.int a) h0).heap = .ok h) :
    New a h0 = NewWithID (.int a) h0 ∧ New b h = NewWithID (.int b) h ∧
    ∃ eA eB,
      stopErrOf (NewWithID (.int a) h0).ctx (NewWithID (.int b) h).heap = some eA ∧
      stopErrOf (NewWithID (.int b) h).ctx (NewWithID (.int b) h).heap = some eB ∧
      eA.msg = "context stopped [id = " ++ formatInt a ++ "]" ∧
      eB.msg = "context stopped [id = " ++ formatInt b ++ "]" ∧
      ¬ eA.msg.data <:+: eB.msg.data ∧
      ¬ eB.msg.data <:+: eA.msg.data ∧
      (∀ x ∈ chain eB, x.ptrEq eA = false) ∧
      (∀ x ∈ chain eA, x.ptrEq eB = false) ∧
      errorsIs (some eB) (some eA) = false ∧
      errorsIs (some eA) (some eB) = false ∧
      Context.IsMyErr (NewWithID (.int a) h0).ctx (some eB) (NewWithID (.int b) h).heap
        = .ok (false, (NewWithID (.int b) h).heap) ∧
      Context.IsMyErr (NewWithID (.int b) h).ctx (some eA) (NewWithID (.int b) h).heap
        = .ok (false, (NewWithID (.int b) h).heap) := by
  obtain ⟨hA, hnext⟩ := later_heap_of_runEvents (.int a) h0 h evs hrun
  exact isMyErr_distinct_ints_later_heap a b h0 h hab hA hnext

theorem C15_witness :
    (1 : Int) ≠ 12 ∧
    runEvents [Event.New 5, Event.call 1 ⟨1, 1⟩ Op.stop]
      (NewWithID (.int 1) Heap.init).heap
      = .ok (Heap.mk [false, true] [false, true]
        (New 5 (NewWithID (.int 1) Heap.init).heap).heap.ctxs 3) ∧
    (New 1 Heap.init = NewWithID (.int 1) Heap.init ∧ New 12 (Heap.mk [false, true] [false, true]
        (New 5 (NewWithID (.int 1) Heap.init).heap).heap.ctxs 3) = NewWithID (.int 12) (Heap.mk [false, true] [false, true]
        (New 5 (NewWithID (.int 1) Heap.init).heap).heap.ctxs 3) ∧
    ∃ eA eB,
      stopErrOf (NewWithID (.int 1) Heap.init).ctx (NewWithID (.int 12) (Heap.mk [false, true] [false, true]
        (New 5 (NewWithID (.int 1) Heap.init).heap).heap.ctxs 3)).heap = some eA ∧
      stopErrOf (NewWithID (.int 12) (Heap.mk [false, true] [false, true]
        (New 5 (NewWithID (.int 1) Heap.init).heap).heap.ctxs 3)).ctx (NewWithID (.int 12) (Heap.mk [false, true] [false, true]
        (New 5 (NewWithID (.int 1) Heap.init).heap).heap.ctxs 3)).heap = some eB ∧
      eA.msg = "context stopped [id = " ++ formatInt 1 ++ "]" ∧
      eB.msg = "context stopped [id = " ++ formatInt 12 ++ "]" ∧
      ¬ eA.msg.data <:+: eB.msg.data ∧
      ¬ eB.msg.data <:+: eA.msg.data ∧
      (∀ x ∈ chain eB, x.ptrEq eA = false) ∧
      (∀ x ∈ chain eA, x.ptrEq eB = false) ∧
      errorsIs (some eB) (some eA) = false ∧
      errorsIs (some eA) (some eB) = false ∧
      Context.IsMyErr (NewWithID (.int 1) Heap.init).ctx (some eB) (NewWithID (.int 12) (Heap.mk [false, true] [false, true]
        (New 5 (NewWithID (.int 1) Heap.init).heap).heap.ctxs 3)).heap
        = .ok (false, (NewWithID (.int 12) (Heap.mk [false, true] [false, true]
        (New 5 (NewWithID (.int 1) Heap.init).heap).heap.ctxs 3)).heap) ∧
      Context.IsMyErr (NewWithID (.int 12) (Heap.mk [false, true] [false, true]
        (New 5 (NewWithID (.int 1) Heap.init).heap).heap.ctxs 3)).ctx (some eA) (NewWithID (.int 12) (Heap.mk [false, true] [false, true]
        (New 5 (NewWithID (.int 1) Heap.init).heap).heap.ctxs 3)).heap
        = .ok (false, (NewWithID (.int 12) (Heap.mk [false, true] [false, true]
        (New 5 (NewWithID (.int 1) Heap.init).heap).heap.ctxs 3)).heap)) :=
  ⟨by decide, by decide,
    C15_distinct_ints_distinguishable 1 12 Heap.init
      (Heap.mk [false, true] [false, true]
        (New 5 (NewWithID (.int 1) Heap.init).heap).heap.ctxs 3)
      [Event.New 5, Event.call 1 ⟨1, 1⟩ Op.stop] (by decide) (by decide)⟩

end Stopctx
